import Mathlib

/-!
Verification of the pastebin server's access-control and lifecycle engine
(`src/server/src/index.ts`) against its natural-language specification.

JavaScript strings are modelled as `List Char`; byte buffers as `List Nat`
(each entry < 256).  Platform built-ins used by the source (UTF-8 encoding,
base64url, `JSON.stringify`/`JSON.parse`, `Date.parse`,
`Date.prototype.toISOString`, the WHATWG URL parser) are given executable
models covering the fragment the server exercises; each model's doc comment
records its scope.
-/

namespace Pastebin

abbrev Str := List Char

/-- The double-quote character (U+0022). -/
def quoteC : Char := Char.ofNat 34

/-- The backslash character (U+005C). -/
def bslashC : Char := Char.ofNat 92

/-- Opening curly brace (U+007B). -/
def braceL : Char := Char.ofNat 123

/-- Closing curly brace (U+007D). -/
def braceR : Char := Char.ofNat 125

/-- UTF-8 encoding of a single Unicode scalar value. -/
def utf8Char (c : Char) : List Nat :=
  if c.toNat < 128 then [c.toNat]
  else if c.toNat < 2048 then [192 + c.toNat / 64, 128 + c.toNat % 64]
  else if c.toNat < 65536 then
    [224 + c.toNat / 4096, 128 + c.toNat / 64 % 64, 128 + c.toNat % 64]
  else
    [240 + c.toNat / 262144, 128 + c.toNat / 4096 % 64, 128 + c.toNat / 64 % 64,
      128 + c.toNat % 64]

/-- UTF-8 encoding of a string, as `Buffer.from(s, 'utf8')` produces. -/
def utf8Encode : Str → List Nat
  | [] => []
  | c :: t => utf8Char c ++ utf8Encode t

mutual
/-- UTF-8 decoding.  Model scope: returns `none` on malformed input where
Node's `toString('utf8')` would substitute U+FFFD; well-formed input decodes
identically. -/
def utf8Decode : List Nat → Option Str
  | [] => some []
  | b :: t =>
    if b < 128 then (utf8Decode t).map (fun s => Char.ofNat b :: s)
    else if b < 192 then none
    else if b < 224 then utf8D2 b t
    else if b < 240 then utf8D3 b t
    else utf8D4 b t
/-- Decode the continuation of a two-byte sequence. -/
def utf8D2 (b : Nat) : List Nat → Option Str
  | b2 :: t2 =>
    if (128 ≤ b2 ∧ b2 < 192) ∧ 128 ≤ (b - 192) * 64 + (b2 - 128) then
      (utf8Decode t2).map (fun s => Char.ofNat ((b - 192) * 64 + (b2 - 128)) :: s)
    else none
  | _ => none
/-- Decode the continuation of a three-byte sequence. -/
def utf8D3 (b : Nat) : List Nat → Option Str
  | b2 :: b3 :: t2 =>
    if (128 ≤ b2 ∧ b2 < 192) ∧ (128 ≤ b3 ∧ b3 < 192) ∧
        2048 ≤ (b - 224) * 4096 + (b2 - 128) * 64 + (b3 - 128) ∧
        ¬ (55296 ≤ (b - 224) * 4096 + (b2 - 128) * 64 + (b3 - 128) ∧
           (b - 224) * 4096 + (b2 - 128) * 64 + (b3 - 128) < 57344) then
      (utf8Decode t2).map
        (fun s => Char.ofNat ((b - 224) * 4096 + (b2 - 128) * 64 + (b3 - 128)) :: s)
    else none
  | _ => none
/-- Decode the continuation of a four-byte sequence. -/
def utf8D4 (b : Nat) : List Nat → Option Str
  | b2 :: b3 :: b4 :: t2 =>
    if (128 ≤ b2 ∧ b2 < 192) ∧ (128 ≤ b3 ∧ b3 < 192) ∧ (128 ≤ b4 ∧ b4 < 192) ∧
        65536 ≤ (b - 240) * 262144 + (b2 - 128) * 4096 + (b3 - 128) * 64 + (b4 - 128) ∧
        (b - 240) * 262144 + (b2 - 128) * 4096 + (b3 - 128) * 64 + (b4 - 128) < 1114112 then
      (utf8Decode t2).map
        (fun s =>
          Char.ofNat
            ((b - 240) * 262144 + (b2 - 128) * 4096 + (b3 - 128) * 64 + (b4 - 128)) :: s)
    else none
  | _ => none
end

/-- Lexicographic comparison of byte sequences, as SQLite's `<=` compares
`TEXT` values (memcmp order on the UTF-8 bytes). -/
def byteLe : List Nat → List Nat → Bool
  | [], _ => true
  | _ :: _, [] => false
  | a :: as, b :: bs => if a < b then true else if b < a then false else byteLe as bs

/-- SQLite string comparison `s <= t` on TEXT columns. -/
def strLe (s t : Str) : Bool := byteLe (utf8Encode s) (utf8Encode t)

/-- Whitespace recognised by the model of `String.prototype.trim`. -/
def isSpaceC (c : Char) : Bool :=
  c = ' ' ∨ c = Char.ofNat 9 ∨ c = Char.ofNat 10 ∨ c = Char.ofNat 13

/-- Model of `value.trim()` (scope: ASCII whitespace). -/
def strTrim (s : Str) : Str :=
  ((s.dropWhile isSpaceC).reverse.dropWhile isSpaceC).reverse

/-- Decimal digit character for `d < 10`. -/
def digitChar (d : Nat) : Char := Char.ofNat (48 + d)

/-- Accumulator loop for rendering a natural number in decimal; the first
argument is fuel (any value exceeding the number suffices). -/
def natDigitsGo : Nat → Nat → Str → Str
  | 0, _, acc => acc
  | f + 1, n, acc =>
    if n < 10 then digitChar n :: acc
    else natDigitsGo f (n / 10) (digitChar (n % 10) :: acc)

/-- Decimal rendering of a natural number, as JavaScript's
`Number.prototype.toString` renders integers. -/
def natToStr (n : Nat) : Str := natDigitsGo (n + 1) n []

/-- Decimal rendering of an integer. -/
def intToStr (i : Int) : Str :=
  if i < 0 then '-' :: natToStr i.natAbs else natToStr i.natAbs

/-- Is `c` a decimal digit? -/
def isDigitC (c : Char) : Bool := 48 ≤ c.toNat ∧ c.toNat ≤ 57

/-- Split the longest leading run of decimal digits from a string. -/
def takeDigits : Str → Str × Str
  | [] => ([], [])
  | c :: t =>
    if isDigitC c then
      let p := takeDigits t
      (c :: p.1, p.2)
    else ([], c :: t)

/-- Numeric value of a string of decimal digits. -/
def digitsVal (ds : Str) : Nat := ds.foldl (fun a c => a * 10 + (c.toNat - 48)) 0

/-- The base64url alphabet character for a 6-bit value. -/
def b64Char (n : Nat) : Char :=
  if n < 26 then Char.ofNat (65 + n)
  else if n < 52 then Char.ofNat (97 + (n - 26))
  else if n < 62 then Char.ofNat (48 + (n - 52))
  else if n = 62 then '-' else '_'

/-- The 6-bit value of a base64url alphabet character. -/
def b64Val (c : Char) : Option Nat :=
  let n := c.toNat
  if 65 ≤ n ∧ n ≤ 90 then some (n - 65)
  else if 97 ≤ n ∧ n ≤ 122 then some (26 + (n - 97))
  else if 48 ≤ n ∧ n ≤ 57 then some (52 + (n - 48))
  else if c = '-' then some 62
  else if c = '_' then some 63
  else none

/-- base64url encoding of a byte sequence (no padding), as
`Buffer.prototype.toString('base64url')` produces. -/
def b64Encode : List Nat → Str
  | [] => []
  | [a] => [b64Char (a / 4), b64Char (a % 4 * 16)]
  | [a, b] => [b64Char (a / 4), b64Char (a % 4 * 16 + b / 16), b64Char (b % 16 * 4)]
  | a :: b :: c :: t =>
    b64Char (a / 4) :: b64Char (a % 4 * 16 + b / 16) ::
      b64Char (b % 16 * 4 + c / 64) :: b64Char (c % 64) :: b64Encode t

/-- base64url decoding.  Model scope: returns `none` on invalid characters or
a trailing group of length 1, where Node's forgiving decoder would skip
bytes; valid unpadded encodings decode identically. -/
def b64Decode : Str → Option (List Nat)
  | [] => some []
  | [_] => none
  | [c1, c2] => do
    let v1 ← b64Val c1
    let v2 ← b64Val c2
    pure [v1 * 4 + v2 / 16]
  | [c1, c2, c3] => do
    let v1 ← b64Val c1
    let v2 ← b64Val c2
    let v3 ← b64Val c3
    pure [v1 * 4 + v2 / 16, v2 % 16 * 16 + v3 / 4]
  | c1 :: c2 :: c3 :: c4 :: t => do
    let v1 ← b64Val c1
    let v2 ← b64Val c2
    let v3 ← b64Val c3
    let v4 ← b64Val c4
    let rest ← b64Decode t
    pure ((v1 * 4 + v2 / 16) :: (v2 % 16 * 16 + v3 / 4) :: (v3 % 4 * 64 + v4) :: rest)

/-- `value.split('.')` from JavaScript: the list of dot-separated segments. -/
def splitDot : Str → List Str
  | [] => [[]]
  | c :: t =>
    if c = '.' then [] :: splitDot t
    else
      match splitDot t with
      | [] => [[c]]
      | g :: gs => (c :: g) :: gs

mutual
/-- A JSON value.  Model scope: numbers are integers (the server only
serialises and compares integral numbers); strings hold the raw character
sequence. -/
inductive Json where
  | null : Json
  | bool (b : Bool) : Json
  | num (n : Int) : Json
  | str (s : Str) : Json
  | arr (xs : JsonList) : Json
  | obj (fs : JsonFields) : Json
/-- A list of JSON values (array elements). -/
inductive JsonList where
  | nil : JsonList
  | cons (hd : Json) (tl : JsonList) : JsonList
/-- An association list of JSON object fields, in insertion order. -/
inductive JsonFields where
  | nil : JsonFields
  | cons (key : Str) (val : Json) (tl : JsonFields) : JsonFields
end

/-- Escape a string character as `JSON.stringify` does.  Model scope: only
`"` and `\` are escaped; control characters below U+0020 (which
`JSON.stringify` would render as `\uXXXX`) are outside the model and are
excluded by `jsonWf`. -/
def escapeChar (c : Char) : Str :=
  if c = quoteC then [bslashC, quoteC]
  else if c = bslashC then [bslashC, bslashC]
  else [c]

/-- Escape a whole string for JSON serialisation. -/
def escapeStr : Str → Str
  | [] => []
  | c :: t => escapeChar c ++ escapeStr t

mutual
/-- `JSON.stringify` (no spacing), on the modelled JSON fragment. -/
def strfyV : Json → Str
  | .null => "null".toList
  | .bool true => "true".toList
  | .bool false => "false".toList
  | .num n => intToStr n
  | .str s => quoteC :: escapeStr s ++ [quoteC]
  | .arr xs => '[' :: strfyL xs ++ [']']
  | .obj fs => braceL :: strfyF fs ++ [braceR]
/-- Serialise array elements, comma separated. -/
def strfyL : JsonList → Str
  | .nil => []
  | .cons x .nil => strfyV x
  | .cons x (.cons y t) => strfyV x ++ ',' :: strfyL (.cons y t)
/-- Serialise object fields, comma separated. -/
def strfyF : JsonFields → Str
  | .nil => []
  | .cons k v .nil => quoteC :: escapeStr k ++ quoteC :: ':' :: strfyV v
  | .cons k v (.cons k2 v2 t) =>
    quoteC :: escapeStr k ++ quoteC :: ':' :: strfyV v ++ ',' :: strfyF (.cons k2 v2 t)
end

mutual
/-- Well-formedness for the JSON model: every string character is at least
U+0020, so `strfyV` agrees with `JSON.stringify`. -/
def jsonWf : Json → Bool
  | .null | .bool _ | .num _ => true
  | .str s => s.all (fun c => 32 ≤ c.toNat)
  | .arr xs => jsonWfL xs
  | .obj fs => jsonWfF fs
/-- Well-formedness of array elements. -/
def jsonWfL : JsonList → Bool
  | .nil => true
  | .cons x t => jsonWf x && jsonWfL t
/-- Well-formedness of object fields. -/
def jsonWfF : JsonFields → Bool
  | .nil => true
  | .cons k v t => k.all (fun c => 32 ≤ c.toNat) && jsonWf v && jsonWfF t
end

/-- Parse a JSON string body (after the opening quote) up to the closing
quote, unescaping `\"` and `\\`. -/
def pStr : Str → Option (Str × Str)
  | [] => none
  | c :: t =>
    if c = quoteC then some ([], t)
    else if c = bslashC then
      match t with
      | [] => none
      | e :: t2 =>
        if e = quoteC ∨ e = bslashC then
          (pStr t2).map (fun p => (e :: p.1, p.2))
        else none
    else (pStr t).map (fun p => (c :: p.1, p.2))

/-- Parse an integer literal (optional minus sign, digit run). -/
def pNum : Str → Option (Int × Str)
  | [] => none
  | c :: t =>
    if c = '-' then
      match takeDigits t with
      | ([], _) => none
      | (ds, r) => some (-(digitsVal ds : Int), r)
    else
      match takeDigits (c :: t) with
      | ([], _) => none
      | (ds, r) => some ((digitsVal ds : Int), r)

mutual
/-- Fuel-indexed recursive-descent parser for the JSON model: one value.
Model scope of `JSON.parse`: no interior whitespace, integer numerals only —
exactly the language `strfyV` produces. -/
def pV : Nat → Str → Option (Json × Str)
  | 0, _ => none
  | _ + 1, [] => none
  | f + 1, c :: t =>
    if c = 'n' then
      match t with
      | 'u' :: 'l' :: 'l' :: r => some (.null, r)
      | _ => none
    else if c = 't' then
      match t with
      | 'r' :: 'u' :: 'e' :: r => some (.bool true, r)
      | _ => none
    else if c = 'f' then
      match t with
      | 'a' :: 'l' :: 's' :: 'e' :: r => some (.bool false, r)
      | _ => none
    else if c = quoteC then (pStr t).map (fun p => (.str p.1, p.2))
    else if c = '[' then
      match t with
      | [] => none
      | c2 :: t2 =>
        if c2 = ']' then some (.arr .nil, t2)
        else (pE f (c2 :: t2)).map (fun p => (.arr p.1, p.2))
    else if c = braceL then
      match t with
      | [] => none
      | c2 :: t2 =>
        if c2 = braceR then some (.obj .nil, t2)
        else (pF f (c2 :: t2)).map (fun p => (.obj p.1, p.2))
    else (pNum (c :: t)).map (fun p => (.num p.1, p.2))
/-- Parser: nonempty `]`-terminated run of array elements. -/
def pE : Nat → Str → Option (JsonList × Str)
  | 0, _ => none
  | f + 1, s =>
    match pV f s with
    | some (j, ',' :: r2) => (pE f r2).map (fun p => (.cons j p.1, p.2))
    | some (j, ']' :: r2) => some (.cons j .nil, r2)
    | _ => none
/-- Parser: nonempty run of object fields terminated by a closing brace. -/
def pF : Nat → Str → Option (JsonFields × Str)
  | 0, _ => none
  | _ + 1, [] => none
  | f + 1, c :: t =>
    if c = quoteC then
      match pStr t with
      | some (k, ':' :: r2) =>
        match pV f r2 with
        | some (j, ',' :: r4) => (pF f r4).map (fun p => (.cons k j p.1, p.2))
        | some (j, c4 :: r4) => if c4 = braceR then some (.cons k j .nil, r4) else none
        | _ => none
      | _ => none
    else none
end

/-- `JSON.parse` on the modelled fragment: parse a complete value with no
trailing input; `none` models a thrown `SyntaxError`. -/
def jsonParse (s : Str) : Option Json :=
  match pV (s.length + 1) s with
  | some (j, []) => some j
  | _ => none

/-! ### Calendar arithmetic and the JavaScript date functions -/

/-- Is `y` a leap year (proleptic Gregorian)? -/
def isLeapY (y : Int) : Bool := y % 4 = 0 ∧ (y % 100 ≠ 0 ∨ y % 400 = 0)

/-- Number of days in month `m` of year `y`. -/
def daysInMonth (y : Int) (m : Nat) : Nat :=
  if m = 2 then (if isLeapY y then 29 else 28)
  else if m = 4 ∨ m = 6 ∨ m = 9 ∨ m = 11 then 30
  else 31

/-- Civil date (year, month 1-12, day 1-31) from a count of days since the
Unix epoch. -/
def civilFromDays (z0 : Int) : Int × Nat × Nat :=
  let z := z0 + 719468
  let era := z.fdiv 146097
  let doe := (z - era * 146097).toNat
  let yoe := (doe - doe / 1460 + doe / 36524 - doe / 146096) / 365
  let doy := doe - (365 * yoe + yoe / 4 - yoe / 100)
  let mp := (5 * doy + 2) / 153
  let d := doy - (153 * mp + 2) / 5 + 1
  let m := if mp < 10 then mp + 3 else mp - 9
  ((yoe : Int) + era * 400 + (if m ≤ 2 then 1 else 0), m, d)

/-- Days since the Unix epoch of a civil date. -/
def daysFromCivil (y : Int) (m d : Nat) : Int :=
  let y' := if m ≤ 2 then y - 1 else y
  let era := y'.fdiv 400
  let yoe := (y' - era * 400).toNat
  let mp := if 2 < m then m - 3 else m + 9
  let doy := (153 * mp + 2) / 5 + d - 1
  let doe := yoe * 365 + yoe / 4 - yoe / 100 + doy
  era * 146097 + (doe : Int) - 719468

/-- Epoch milliseconds of a UTC civil date-time. -/
def dateMillis (y : Int) (mo d h mi se ms : Nat) : Int :=
  daysFromCivil y mo d * 86400000 +
    ((h * 3600000 + mi * 60000 + se * 1000 + ms : Nat) : Int)

/-- Left-pad a decimal rendering with zeroes to width `w`. -/
def padNum (w n : Nat) : Str :=
  List.replicate (w - (natToStr n).length) '0' ++ natToStr n

/-- `Date.prototype.toISOString` on epoch milliseconds.  Model scope: years
0000-9999 (the extended ±YYYYYY form is not modelled). -/
def toIso (ms : Int) : Str :=
  let day := ms.fdiv 86400000
  let rem := (ms - day * 86400000).toNat
  match civilFromDays day with
  | (y, mo, d) =>
    padNum 4 y.toNat ++ '-' :: padNum 2 mo ++ '-' :: padNum 2 d ++
      'T' :: padNum 2 (rem / 3600000) ++ ':' :: padNum 2 (rem / 60000 % 60) ++
      ':' :: padNum 2 (rem / 1000 % 60) ++ '.' :: padNum 3 (rem % 1000) ++ ['Z']

/-- Read exactly `k` decimal digits, accumulating their value. -/
def digitsNGo : Nat → Nat → Str → Option (Nat × Str)
  | 0, acc, s => some (acc, s)
  | k + 1, acc, s =>
    match s with
    | c :: t => if isDigitC c then digitsNGo k (acc * 10 + (c.toNat - 48)) t else none
    | [] => none

/-- Read exactly `k` decimal digits. -/
def digitsN (k : Nat) (s : Str) : Option (Nat × Str) := digitsNGo k 0 s

/-- Consume an expected character. -/
def expectC (c : Char) : Str → Option Str
  | x :: t => if x = c then some t else none
  | [] => none

/-- Parse an ISO time-zone designator and require the end of input; the
result is the offset in minutes east of UTC. -/
def parseTz : Str → Option Int
  | ['Z'] => some 0
  | '+' :: r => do
    let (h, r) ← digitsN 2 r
    let r ← expectC ':' r
    let (m, r) ← digitsN 2 r
    if r = [] then some ((h * 60 + m : Nat) : Int) else none
  | '-' :: r => do
    let (h, r) ← digitsN 2 r
    let r ← expectC ':' r
    let (m, r) ← digitsN 2 r
    if r = [] then some (-((h * 60 + m : Nat) : Int)) else none
  | _ => none

/-- Parse the time part `HH:MM(:SS(.sss)?)?` followed by a time zone. -/
def parseIsoTime (y : Int) (mo d : Nat) (s : Str) : Option Int := do
  let (h, r) ← digitsN 2 s
  let r ← expectC ':' r
  let (mi, r) ← digitsN 2 r
  let (se, ms, r) ←
    match r with
    | ':' :: r2 => do
      let (se, r3) ← digitsN 2 r2
      match r3 with
      | '.' :: r4 => do
        let (ms, r5) ← digitsN 3 r4
        pure (se, ms, r5)
      | _ => pure (se, 0, r3)
    | _ => pure (0, 0, r)
  if h ≤ 23 ∧ mi ≤ 59 ∧ se ≤ 59 then
    let off ← parseTz r
    pure (dateMillis y mo d h mi se ms - off * 60000)
  else none

/-- Parse an ISO 8601 date or date-time.  Model scope: four-digit years; a
date-time must carry an explicit `Z` or `±HH:MM` designator (date-times
without one denote local time and are outside the model); a date-only form
denotes midnight UTC, as ECMA-262 specifies. -/
def parseIso (s : Str) : Option Int := do
  let (y, r) ← digitsN 4 s
  let r ← expectC '-' r
  let (mo, r) ← digitsN 2 r
  let r ← expectC '-' r
  let (d, r) ← digitsN 2 r
  if 1 ≤ mo ∧ mo ≤ 12 ∧ 1 ≤ d ∧ d ≤ daysInMonth (y : Int) mo then
    match r with
    | [] => pure (dateMillis (y : Int) mo d 0 0 0 0)
    | 'T' :: r2 => parseIsoTime (y : Int) mo d r2
    | _ => none
  else none

/-- Parse a three-letter English month name. -/
def month3 : Str → Option (Nat × Str)
  | 'J' :: 'a' :: 'n' :: r => some (1, r)
  | 'F' :: 'e' :: 'b' :: r => some (2, r)
  | 'M' :: 'a' :: 'r' :: r => some (3, r)
  | 'A' :: 'p' :: 'r' :: r => some (4, r)
  | 'M' :: 'a' :: 'y' :: r => some (5, r)
  | 'J' :: 'u' :: 'n' :: r => some (6, r)
  | 'J' :: 'u' :: 'l' :: r => some (7, r)
  | 'A' :: 'u' :: 'g' :: r => some (8, r)
  | 'S' :: 'e' :: 'p' :: r => some (9, r)
  | 'O' :: 'c' :: 't' :: r => some (10, r)
  | 'N' :: 'o' :: 'v' :: r => some (11, r)
  | 'D' :: 'e' :: 'c' :: r => some (12, r)
  | _ => none

/-- Is `c` an ASCII letter? -/
def isAlphaC (c : Char) : Bool :=
  (65 ≤ c.toNat ∧ c.toNat ≤ 90) ∨ (97 ≤ c.toNat ∧ c.toNat ≤ 122)

/-- Parse the RFC-1123 style form produced by `Date.prototype.toUTCString`
(`Www, DD Mon YYYY HH:MM:SS GMT`), which ECMA-262 requires `Date.parse` to
accept. -/
def parseRfc1123 : Str → Option Int
  | a :: b :: c :: ',' :: ' ' :: r =>
    if isAlphaC a ∧ isAlphaC b ∧ isAlphaC c then do
      let (d, r) ← digitsN 2 r
      let r ← expectC ' ' r
      let (mo, r) ← month3 r
      let r ← expectC ' ' r
      let (y, r) ← digitsN 4 r
      let r ← expectC ' ' r
      let (h, r) ← digitsN 2 r
      let r ← expectC ':' r
      let (mi, r) ← digitsN 2 r
      let r ← expectC ':' r
      let (se, r) ← digitsN 2 r
      match r with
      | ' ' :: 'G' :: 'M' :: 'T' :: rest =>
        if rest = [] ∧ 1 ≤ d ∧ d ≤ daysInMonth (y : Int) mo ∧ h ≤ 23 ∧ mi ≤ 59 ∧ se ≤ 59 then
          pure (dateMillis (y : Int) mo d h mi se 0)
        else none
      | _ => none
    else none
  | _ => none

/-- `Date.parse`: `none` models `NaN`.  Model scope: the strict ISO 8601
forms of `parseIso` and the `toUTCString` form of `parseRfc1123`; other
implementation-defined date formats are outside the model. -/
def jsDateParse (s : Str) : Option Int :=
  match parseIso s with
  | some t => some t
  | none => parseRfc1123 s

/-! ### Session token codec (`buildSessionCookie` / `verifySessionCookie`)

The signing secret is process-wide configuration, so the HMAC-SHA256
primitive `signValue = createHmac('sha256', AUTH_SECRET)…digest('base64url')`
is modelled as an explicit function parameter `sign`; the theorems assume of
it only properties every keyed MAC in base64url form has (determinism is
built in, outputs are nonempty and dot-free). -/

/-- `base64UrlEncode`: UTF-8 bytes rendered in base64url. -/
def base64UrlEncodeS (s : Str) : Str := b64Encode (utf8Encode s)

/-- `base64UrlDecode`: base64url to bytes to a UTF-8 string. -/
def base64UrlDecodeS (s : Str) : Option Str := (b64Decode s).bind utf8Decode

/-- The session claim object `{ userId, iat }`, in `JSON.stringify` key
order. -/
def sessionPayloadJson (userId iat : Int) : Json :=
  .obj (.cons "userId".toList (.num userId) (.cons "iat".toList (.num iat) .nil))

/-- `buildSessionCookie`: signed token `payload.signature`. -/
def buildSessionCookie (sign : Str → Str) (userId : Int) (now : Int) : Str :=
  let payload := base64UrlEncodeS (strfyV (sessionPayloadJson userId now))
  payload ++ '.' :: sign payload

/-- Field lookup on a decoded JSON value, as JavaScript property access on
`JSON.parse` output: `none` models `undefined`; for duplicate keys the last
occurrence wins. -/
def jFieldsGet : JsonFields → Str → Option Json
  | .nil, _ => none
  | .cons key v t, k =>
    match jFieldsGet t k with
    | some r => some r
    | none => if key = k then some v else none

/-- Property access `j[k]` (`none` = `undefined`, also on non-objects). -/
def jGet (j : Json) (k : Str) : Option Json :=
  match j with
  | .obj fs => jFieldsGet fs k
  | _ => none

/-- JavaScript truthiness of a JSON value. -/
def jsTruthy : Json → Bool
  | .null => false
  | .bool b => b
  | .num n => n ≠ 0
  | .str s => s ≠ []
  | .arr _ => true
  | .obj _ => true

/-- Truthiness of a possibly-`undefined` value. -/
def jsTruthyO : Option Json → Bool
  | none => false
  | some j => jsTruthy j

/-- Integer-string numeric value.  Model scope of JavaScript string-to-number
coercion: optionally signed decimal integer strings; `none` models `NaN`. -/
def strToIntOpt : Str → Option Int
  | '-' :: t =>
    match takeDigits t with
    | (ds, []) => if ds = [] then none else some (-(digitsVal ds : Int))
    | _ => none
  | s =>
    match takeDigits s with
    | (ds, []) => if ds = [] then none else some ((digitsVal ds : Int))
    | _ => none

/-- Numeric coercion of a JSON value for the subtraction `now - iat`;
`none` models `NaN`.  Model scope: arrays and objects coerce to `none`. -/
def jsToNumber : Json → Option Int
  | .num n => some n
  | .bool b => some (if b then 1 else 0)
  | .null => some 0
  | .str s =>
    let t := strTrim s
    if t = [] then some 0 else strToIntOpt t
  | .arr _ => none
  | .obj _ => none

/-- `verifySessionCookie`: split on the dot, recompute the MAC, compare
byte-for-byte (the length check plus `timingSafeEqual` amount to byte
equality), then decode the payload and validate the claim.  The result is
`decoded.userId` (`none` models `null`). -/
def verifySessionCookie (sign : Str → Str) (ttl : Int) (value : Str) (now : Int) :
    Option Json :=
  let parts := splitDot value
  let payload := parts.headD []
  match (parts.drop 1).head? with
  | none => none
  | some signature =>
    if payload = [] then none
    else if signature = [] then none
    else if utf8Encode signature = utf8Encode (sign payload) then
      match (base64UrlDecodeS payload).bind jsonParse with
      | none => none
      | some decoded =>
        if jsTruthyO (jGet decoded "userId".toList) = false then none
        else if jsTruthyO (jGet decoded "iat".toList) = false then none
        else
          match jGet decoded "iat".toList with
          | none => none
          | some iat =>
            match jsToNumber iat with
            | some t => if ttl < now - t then none else jGet decoded "userId".toList
            | none => jGet decoded "userId".toList
    else none

/-! ### Credential hasher, document store, and the five document handlers -/

/-- Modelled from the spec: the Credential Hasher (§4.1) wraps the argon2
library, which is an external dependency, not part of `src/`; the contract
is `hash(plaintext) -> digest` (salted, one-way) and
`verify(digest, plaintext) -> bool`, where a malformed digest fails closed.
The model renders a digest as a tagged copy of the plaintext (the random
salt does not affect verification and is not modelled). -/
def hasherHash (plaintext : Str) : Str := "$argon2$".toList ++ plaintext

/-- Modelled from the spec: `verify(digest, plaintext)`; total, so
verification never throws, and any string that is not a digest the hasher
produced verifies against nothing. -/
def hasherVerify (digest plaintext : Str) : Bool := digest = hasherHash plaintext

/-- A digest is malformed when the hasher never produces it. -/
def MalformedDigest (d : Str) : Prop := ∀ pt, d ≠ hasherHash pt

/-- One row of the `documents` table. -/
structure DocRecord where
  content : Str
  createdAt : Str
  updatedAt : Str
  expiresAt : Option Str
  passwordHash : Option Str
  passwordSetAt : Option Str
  viewCount : Int
  lastAccessedAt : Option Str
deriving DecidableEq

/-- The `documents` table: association list from id to row. -/
abbrev Store := List (Str × DocRecord)

/-- `SELECT ... WHERE id = ?` (first matching row). -/
def storeGet : Store → Str → Option DocRecord
  | [], _ => none
  | (k, d) :: t, id => if k = id then some d else storeGet t id

/-- `DELETE FROM documents WHERE id = ?`. -/
def storeDel : Store → Str → Store
  | [], _ => []
  | (k, d) :: t, id => if k = id then storeDel t id else (k, d) :: storeDel t id

/-- `UPDATE documents SET ... WHERE id = ?` (updates every matching row). -/
def storeSet : Store → Str → (DocRecord → DocRecord) → Store
  | [], _, _ => []
  | (k, d) :: t, id, f =>
    if k = id then (k, f d) :: storeSet t id f else (k, d) :: storeSet t id f

/-- `INSERT INTO documents`. -/
def storeIns (st : Store) (id : Str) (d : DocRecord) : Store := st ++ [(id, d)]

/-- `isExpired`: a document is logically expired when its expiry string is
truthy and parses to an instant at or before now (`NaN <= now` is false). -/
def isExpired (expiresAt : Option Str) (now : Int) : Bool :=
  match expiresAt with
  | none => false
  | some s =>
    if s = [] then false
    else
      match jsDateParse s with
      | some t => t ≤ now
      | none => false

/-- The empty JSON object `{}`. -/
def emptyObjJson : Json := .obj .nil

/-- `ensureDocSize`: serialise the content (`content ?? {}`) and reject when
its UTF-8 byte length exceeds the ceiling. -/
def ensureDocSize (maxB : Nat) (content : Option Json) : Option Str :=
  let json := strfyV (content.getD emptyObjJson)
  if maxB < (utf8Encode json).length then none else some json

/-- The three places a document password may be supplied. -/
structure PwSources where
  header : Option Str
  query : Option Str
  bodyPw : Option Str

/-- `getPassword`: header beats query beats body; header and query count
only when nonempty after trimming, the body field only when truthy. -/
def getPassword (r : PwSources) : Option Str :=
  if (match r.header with | some h => !(strTrim h).isEmpty | none => false) then r.header
  else if (match r.query with | some q => !(strTrim q).isEmpty | none => false) then r.query
  else
    match r.bodyPw with
    | some p => if p ≠ [] then some p else none
    | none => none

/-- The distinct responses of the document endpoints (§6: each a distinct
signal).  `dbError` models the exception a duplicate-id `INSERT` raises;
`okSweep` is the (response-less) completion of the background sweep. -/
inductive Resp where
  | notFound
  | expired
  | passwordRequired
  | invalidPassword
  | badPasswordInput
  | conflictPasswordSet
  | missingContent
  | docTooLarge
  | expiresAtRequired
  | invalidExpiresAt
  | dbError
  | okSweep
  | okCreate (id : Str)
  | okRead (content : Option Json) (expiresAt : Option Str) (hasPassword : Bool)
  | okWrite (updatedAt : Str)
  | okPasswordSet (passwordSetAt : Str)
  | okExpiry (expiresAt : Option Str)

/-- `Boolean(doc.passwordHash)`: locked iff the hash is a truthy string. -/
def docLocked (d : DocRecord) : Bool :=
  match d.passwordHash with
  | some h => h ≠ []
  | none => false

/-- The initial content `{type:'doc',content:[{type:'paragraph'}]}` of
`POST /api/docs`. -/
def initialDocJson : Json :=
  .obj (.cons "type".toList (.str "doc".toList)
    (.cons "content".toList
      (.arr (.cons (.obj (.cons "type".toList (.str "paragraph".toList) .nil)) .nil)) .nil))

/-- `POST /api/docs` (after the rate limiter): size-check the initial
content and insert a fresh row. -/
def createDoc (maxB : Nat) (st : Store) (id : Str) (now : Int) : Resp × Store :=
  match ensureDocSize maxB (some initialDocJson) with
  | none => (.docTooLarge, st)
  | some json =>
    match storeGet st id with
    | some _ => (.dbError, st)
    | none =>
      (.okCreate id,
        storeIns st id
          { content := json, createdAt := toIso now, updatedAt := toIso now,
            expiresAt := none, passwordHash := none, passwordSetAt := none,
            viewCount := 0, lastAccessedAt := none })

/-- `GET /api/docs/:id`: lookup, lazy expiry check (delete on expiry),
password guard, then increment the view counter, stamp last access, and
return the parsed content. -/
def getDoc (st : Store) (id : Str) (r : PwSources) (now : Int) : Resp × Store :=
  match storeGet st id with
  | none => (.notFound, st)
  | some doc =>
    if isExpired doc.expiresAt now then (.expired, storeDel st id)
    else
      let proceed : Resp × Store :=
        (.okRead (jsonParse doc.content) doc.expiresAt (docLocked doc),
          storeSet st id (fun d =>
            { d with viewCount := d.viewCount + 1, lastAccessedAt := some (toIso now) }))
      match doc.passwordHash with
      | some h =>
        if h ≠ [] then
          match getPassword r with
          | none => (.passwordRequired, st)
          | some pw => if hasherVerify h pw then proceed else (.invalidPassword, st)
        else proceed
      | none => proceed

/-- The body of `PUT /api/docs/:id`. -/
structure PutBody where
  content : Option Json
  password : Option Str

/-- `PUT /api/docs/:id`: content presence check, lookup, lazy expiry check,
password guard, size check, then store the serialised content. -/
def putDoc (maxB : Nat) (st : Store) (id : Str) (hdr qry : Option Str)
    (body : Option PutBody) (now : Int) : Resp × Store :=
  match body with
  | none => (.missingContent, st)
  | some b =>
    match b.content with
    | none => (.missingContent, st)
    | some c =>
      if jsTruthy c = false then (.missingContent, st)
      else
        match storeGet st id with
        | none => (.notFound, st)
        | some doc =>
          if isExpired doc.expiresAt now then (.expired, storeDel st id)
          else
            let proceed : Resp × Store :=
              match ensureDocSize maxB (some c) with
              | none => (.docTooLarge, st)
              | some json =>
                (.okWrite (toIso now),
                  storeSet st id (fun d =>
                    { d with content := json, updatedAt := toIso now }))
            match doc.passwordHash with
            | some h =>
              if h ≠ [] then
                match getPassword ⟨hdr, qry, b.password⟩ with
                | none => (.passwordRequired, st)
                | some pw => if hasherVerify h pw then proceed else (.invalidPassword, st)
              else proceed
            | none => proceed

/-- The body of `POST /api/docs/:id/password`. -/
structure SetPwBody where
  password : Option Str

/-- `POST /api/docs/:id/password`: input check (min length 4), lookup,
conflict check on an already-locked document, then store the digest.  Note:
no expiry check and no password guard. -/
def setPasswordDoc (st : Store) (id : Str) (body : Option SetPwBody) (now : Int) :
    Resp × Store :=
  match body with
  | none => (.badPasswordInput, st)
  | some b =>
    match b.password with
    | none => (.badPasswordInput, st)
    | some p =>
      if p = [] ∨ p.length < 4 then (.badPasswordInput, st)
      else
        match storeGet st id with
        | none => (.notFound, st)
        | some doc =>
          if docLocked doc then (.conflictPasswordSet, st)
          else
            (.okPasswordSet (toIso now),
              storeSet st id (fun d =>
                { d with passwordHash := some (hasherHash p),
                         passwordSetAt := some (toIso now) }))

/-- The body of `POST /api/docs/:id/expiry`; the outer `Option` is presence
of the field, the inner one distinguishes a timestamp string from `null`. -/
structure SetExpBody where
  expiresAt : Option (Option Str)

/-- `POST /api/docs/:id/expiry`: field presence check, lookup, timestamp
parseability check, then store the raw string (or clear on `null`).  Note:
no expiry check and no password guard. -/
def setExpiryDoc (st : Store) (id : Str) (body : Option SetExpBody) (now : Int) :
    Resp × Store :=
  match body with
  | none => (.expiresAtRequired, st)
  | some b =>
    match b.expiresAt with
    | none => (.expiresAtRequired, st)
    | some v =>
      match storeGet st id with
      | none => (.notFound, st)
      | some _ =>
        match v with
        | some s =>
          if jsDateParse s = none then (.invalidExpiresAt, st)
          else (.okExpiry (some s), storeSet st id (fun d => { d with expiresAt := some s }))
        | none => (.okExpiry none, storeSet st id (fun d => { d with expiresAt := none }))

/-- Does the eager sweep's SQL predicate `expiresAt <= ?` select this row
(string comparison against the current ISO timestamp; `NULL` never
matches)? -/
def sweepSelects (d : DocRecord) (now : Int) : Bool :=
  match d.expiresAt with
  | some s => strLe s (toIso now)
  | none => false

/-- `cleanupExpired`: the periodic sweep,
`DELETE FROM documents WHERE expiresAt <= new Date().toISOString()`. -/
def cleanupExpired : Store → Int → Store
  | [], _ => []
  | (k, d) :: t, now =>
    if sweepSelects d now then cleanupExpired t now else (k, d) :: cleanupExpired t now

/-- One inbound document operation, with the instant at which it runs. -/
inductive DocOp where
  | create (id : Str) (now : Int)
  | read (id : Str) (r : PwSources) (now : Int)
  | write (id : Str) (hdr qry : Option Str) (body : Option PutBody) (now : Int)
  | setPw (id : Str) (body : Option SetPwBody) (now : Int)
  | setExp (id : Str) (body : Option SetExpBody) (now : Int)
  | sweep (now : Int)

/-- Apply one operation to the store. -/
def applyOp (maxB : Nat) (st : Store) : DocOp → Resp × Store
  | .create id now => createDoc maxB st id now
  | .read id r now => getDoc st id r now
  | .write id hdr qry body now => putDoc maxB st id hdr qry body now
  | .setPw id body now => setPasswordDoc st id body now
  | .setExp id body now => setExpiryDoc st id body now
  | .sweep now => (.okSweep, cleanupExpired st now)

/-- Stores reachable from the empty table through the document operations. -/
inductive Reachable (maxB : Nat) : Store → Prop where
  | init : Reachable maxB []
  | step (st : Store) (op : DocOp) (h : Reachable maxB st) :
      Reachable maxB (applyOp maxB st op).2

/-! ### Favorites merge (client, `src/unnamed/part_001`) -/

/-- A favorite as the merge sees it: target URL and display title. -/
structure Fav where
  url : Str
  title : Str
deriving DecidableEq

/-- Characters the URL-model host may contain. -/
def isHostC (c : Char) : Bool :=
  (97 ≤ c.toNat ∧ c.toNat ≤ 122) ∨ isDigitC c ∨ c = '.' ∨ c = '-'

/-- Characters the URL-model path may contain. -/
def isPathC (c : Char) : Bool :=
  isAlphaC c ∨ isDigitC c ∨ c = '/' ∨ c = '-' ∨ c = '_' ∨ c = '.' ∨ c = '~'

/-- Model of `new URL(...)` on absolute URLs.  Model scope of the WHATWG
parser: `http`/`https` scheme, lower-case host without port, userinfo,
query, or fragment, simple path characters — URLs this parser accepts have
`href` identical to the input (with `/` appended to an empty path). -/
def parseAbsUrl (s : Str) : Option (Str × Str × Str) :=
  match s with
  | 'h' :: 't' :: 't' :: 'p' :: ':' :: '/' :: '/' :: r =>
    match r.span isHostC with
    | (host, path) =>
      if host ≠ [] ∧ (path = [] ∨ path.head? = some '/') ∧ path.all isPathC then
        some ("http".toList, host, path)
      else none
  | 'h' :: 't' :: 't' :: 'p' :: 's' :: ':' :: '/' :: '/' :: r =>
    match r.span isHostC with
    | (host, path) =>
      if host ≠ [] ∧ (path = [] ∨ path.head? = some '/') ∧ path.all isPathC then
        some ("https".toList, host, path)
      else none
  | _ => none

/-- `normalizeUrl`: trim, build the URL's `href`, then strip one trailing
slash unless the pathname is `/`.  Inputs outside `parseAbsUrl`'s scope
take the catch branch (returning the trimmed input); the theorems only
instantiate in-scope URLs, where this agrees with the browser. -/
def normalizeUrl (value : Str) : Str :=
  let trimmed := strTrim value
  if trimmed = [] then []
  else
    match parseAbsUrl trimmed with
    | some (sch, host, path) =>
      let href := sch ++ "://".toList ++ host ++ (if path = [] then "/".toList else path)
      let pathname := if path = [] then "/".toList else path
      if href.getLast? = some '/' ∧ pathname ≠ "/".toList then href.dropLast else href
    | none => trimmed

/-- `POST /api/favorites` as the merge loop calls it: the server trims both
fields, rejects when either is empty, and otherwise appends a new favorite
(no deduplication server-side). -/
def favCreate (server : List Fav) (f : Fav) : Option (List Fav) :=
  let url := strTrim f.url
  let title := strTrim f.title
  if url = [] ∨ title = [] then none
  else some (server ++ [{ url := url, title := title }])

/-- The upload loop of the merge: stop (returning `false`) at the first
failed request, leaving earlier uploads in place. -/
def uploadFavs (server : List Fav) : List Fav → List Fav × Bool
  | [] => (server, true)
  | f :: t =>
    match favCreate server f with
    | none => (server, false)
    | some s2 => uploadFavs s2 t

/-- `mergeLocalFavoritesToServer`: filter local favorites against the
normalized server URL set (computed once, before any upload), upload the
survivors in order, and clear local storage when every upload succeeded.
Result: (server favorites, local store, returned boolean). -/
def mergeLocalFavoritesToServer (server locals : List Fav) :
    List Fav × List Fav × Bool :=
  if locals = [] then (server, locals, false)
  else
    let serverUrls := server.map (fun f => normalizeUrl f.url)
    let toUpload := locals.filter (fun f => ¬ serverUrls.contains (normalizeUrl f.url))
    if toUpload = [] then (server, [], true)
    else
      match uploadFavs server toUpload with
      | (s2, true) => (s2, [], true)
      | (s2, false) => (s2, locals, false)

/-- Little-endian decimal digits, with `0` rendered as a single digit. -/
def decDigits (n : Nat) : List Nat := if n = 0 then [0] else Nat.digits 10 n

/-- Does `s` not start with a decimal digit (the delimiters that follow a
serialised number in JSON all satisfy this)? -/
def nonDigitStart (s : Str) : Prop := ∀ c, s.head? = some c → isDigitC c = false

/-! ### Helper lemmas: decimal digits -/

theorem charOfNat_toNat {n : Nat} (h : n < 55296) : (Char.ofNat n).toNat = n := by
  have hv : n.isValidChar := Or.inl h
  simp [Char.ofNat, Char.toNat, hv]
  rfl

theorem digitChar_toNat {d : Nat} (h : d < 10) : (digitChar d).toNat = 48 + d := by
  have : 48 + d < 55296 := by omega
  simpa [digitChar] using charOfNat_toNat this

theorem isDigitC_digitChar {d : Nat} (h : d < 10) : isDigitC (digitChar d) = true := by
  simp [isDigitC, digitChar_toNat h]
  omega

theorem decDigits_lt {n d : Nat} (h : d ∈ decDigits n) : d < 10 := by
  unfold decDigits at h
  by_cases hn : n = 0
  · simp [hn] at h
    omega
  · exact Nat.digits_lt_base (by norm_num) (by simpa [hn] using h)

theorem decDigits_ne_nil (n : Nat) : decDigits n ≠ [] := by
  unfold decDigits
  by_cases hn : n = 0
  · simp [hn]
  · simpa [hn] using Nat.digits_ne_nil_iff_ne_zero.mpr hn

theorem natDigitsGo_decDigits :
    ∀ f n acc, n < f → natDigitsGo f n acc = (decDigits n).reverse.map digitChar ++ acc := by
  intro f
  induction f with
  | zero => intro n acc h; omega
  | succ f ih =>
    intro n acc h
    by_cases hn : n < 10
    · have hdec : decDigits n = [n] := by
        unfold decDigits
        by_cases h0 : n = 0
        · simp [h0]
        · rw [if_neg h0, Nat.digits_def' (by norm_num : (1:ℕ) < 10) (Nat.pos_of_ne_zero h0)]
          simp [Nat.mod_eq_of_lt hn, Nat.div_eq_of_lt hn]
      simp [natDigitsGo, hn, hdec]
    · have hpos : 0 < n := by omega
      have hdiv : n / 10 < n := Nat.div_lt_self hpos (by norm_num)
      have hdf : n / 10 < f := by omega
      have hdpos : 0 < n / 10 := Nat.div_pos (by omega) (by norm_num)
      have hdec : decDigits n = n % 10 :: decDigits (n / 10) := by
        unfold decDigits
        rw [if_neg (by omega), if_neg (by omega),
          Nat.digits_def' (by norm_num : (1:ℕ) < 10) hpos]
      rw [show natDigitsGo (f + 1) n acc
            = natDigitsGo f (n / 10) (digitChar (n % 10) :: acc) by simp [natDigitsGo, hn],
        ih (n / 10) (digitChar (n % 10) :: acc) hdf, hdec]
      simp

theorem natToStr_eq (n : Nat) : natToStr n = (decDigits n).reverse.map digitChar := by
  simpa using natDigitsGo_decDigits (n + 1) n [] (by omega)

theorem natToStr_all_digits {n : Nat} {c : Char} (h : c ∈ natToStr n) :
    isDigitC c = true := by
  rw [natToStr_eq] at h
  rcases List.mem_map.mp h with ⟨d, hd, rfl⟩
  exact isDigitC_digitChar (decDigits_lt (List.mem_reverse.mp hd))

theorem natToStr_ne_nil (n : Nat) : natToStr n ≠ [] := by
  rw [natToStr_eq]
  simp [decDigits_ne_nil]

theorem digitsVal_append_one (a : Str) (c : Char) :
    digitsVal (a ++ [c]) = digitsVal a * 10 + (c.toNat - 48) := by
  simp [digitsVal, List.foldl_append]

theorem digitsVal_revmap {l : List Nat} (h : ∀ d ∈ l, d < 10) :
    digitsVal (l.reverse.map digitChar) = Nat.ofDigits 10 l := by
  induction l with
  | nil => simp [digitsVal, Nat.ofDigits]
  | cons d t ih =>
    have hd : d < 10 := h d (by simp)
    have ht : ∀ x ∈ t, x < 10 := fun x hx => h x (by simp [hx])
    rw [List.reverse_cons, List.map_append]
    simp only [List.map_cons, List.map_nil]
    rw [digitsVal_append_one, ih ht, Nat.ofDigits_cons, digitChar_toNat hd]
    omega

theorem digitsVal_natToStr (n : Nat) : digitsVal (natToStr n) = n := by
  rw [natToStr_eq]
  by_cases hn : n = 0
  · simp [hn, decDigits, digitsVal, digitChar_toNat]
  · rw [digitsVal_revmap (fun d hd => decDigits_lt hd)]
    simp [decDigits, hn, Nat.ofDigits_digits]

theorem takeDigits_append {ds rest : Str} (hds : ∀ c ∈ ds, isDigitC c = true)
    (hr : nonDigitStart rest) : takeDigits (ds ++ rest) = (ds, rest) := by
  induction ds with
  | nil =>
    cases rest with
    | nil => rfl
    | cons c t =>
      have : isDigitC c = false := hr c rfl
      simp [takeDigits, this]
  | cons c t ih =>
    have hc : isDigitC c = true := hds c (by simp)
    have ht : ∀ x ∈ t, isDigitC x = true := fun x hx => hds x (by simp [hx])
    simp [takeDigits, hc, ih ht]

theorem intToStr_ne_nil (i : Int) : intToStr i ≠ [] := by
  unfold intToStr
  by_cases h : i < 0
  · simp [h]
  · simp [h, natToStr_ne_nil]

theorem pNum_minus (s : Str) :
    pNum ('-' :: s) =
      (match takeDigits s with
        | ([], _) => none
        | (ds, r) => some (-(digitsVal ds : Int), r)) := rfl

theorem pNum_nonminus {c : Char} (hc : c ≠ '-') (t : Str) :
    pNum (c :: t) =
      (match takeDigits (c :: t) with
        | ([], _) => none
        | (ds, r) => some ((digitsVal ds : Int), r)) := by
  simp [pNum, hc]

theorem pNum_intToStr (i : Int) (rest : Str) (hr : nonDigitStart rest) :
    pNum (intToStr i ++ rest) = some (i, rest) := by
  have hds : takeDigits (natToStr i.natAbs ++ rest) = (natToStr i.natAbs, rest) :=
    takeDigits_append (fun c hc => natToStr_all_digits hc) hr
  have hval : digitsVal (natToStr i.natAbs) = i.natAbs := digitsVal_natToStr _
  cases hgo : natToStr i.natAbs with
  | nil => exact absurd hgo (natToStr_ne_nil _)
  | cons c t =>
    rw [hgo] at hds hval
    rw [List.cons_append] at hds
    by_cases h : i < 0
    · have habs : -(i.natAbs : Int) = i := by omega
      rw [intToStr, if_pos h, hgo]
      rw [List.cons_append, pNum_minus, List.cons_append, hds]
      simp only [hval]
      rw [habs]
    · have habs : (i.natAbs : Int) = i := by omega
      have hc : isDigitC c = true := natToStr_all_digits (by rw [hgo]; simp)
      have hcm : c ≠ '-' := by
        intro hcontra
        rw [hcontra] at hc
        simp [isDigitC] at hc
      rw [intToStr, if_neg h, hgo, List.cons_append, pNum_nonminus hcm, hds]
      simp [hval, habs]

/-! ### Helper lemmas: JSON string escaping -/

theorem pStr_escape (s rest : Str) : pStr (escapeStr s ++ quoteC :: rest) = some (s, rest) := by
  induction s with
  | nil =>
    show pStr (quoteC :: rest) = some ([], rest)
    rw [pStr.eq_def]
    simp
  | cons c t ih =>
    have hqb : quoteC ≠ bslashC := by decide
    have hbq : bslashC ≠ quoteC := by decide
    by_cases hq : c = quoteC
    · subst hq
      simp only [escapeStr, escapeChar, if_pos rfl, List.cons_append, List.nil_append]
      rw [pStr.eq_def]
      simp [ih, hbq]
    · by_cases hb : c = bslashC
      · subst hb
        simp only [escapeStr, escapeChar, if_neg hqb, if_pos rfl, List.cons_append,
          List.nil_append]
        rw [pStr.eq_def]
        simp [ih, hbq]
      · simp only [escapeStr, escapeChar, if_neg hq, if_neg hb, List.cons_append,
          List.nil_append]
        rw [pStr.eq_def]
        simp [ih, hq, hb]

/-! ### Helper lemmas: UTF-8 -/

theorem char_toNat_lt (c : Char) : c.toNat < 1114112 := by
  have h := c.valid
  simp only [Char.toNat]
  rcases h with h | ⟨h1, h2⟩
  · omega
  · omega

theorem char_not_surrogate (c : Char) : ¬ (55296 ≤ c.toNat ∧ c.toNat < 57344) := by
  have h := c.valid
  simp only [Char.toNat]
  rcases h with h | ⟨h1, h2⟩
  · omega
  · omega

theorem utf8Char_ascii {c : Char} (h : c.toNat < 128) : utf8Char c = [c.toNat] := by
  simp [utf8Char, h]

theorem utf8Char_two {c : Char} (h1 : ¬ c.toNat < 128) (h2 : c.toNat < 2048) :
    utf8Char c = [192 + c.toNat / 64, 128 + c.toNat % 64] := by
  simp [utf8Char, h1, h2]

theorem utf8Char_three {c : Char} (h2 : ¬ c.toNat < 2048) (h3 : c.toNat < 65536) :
    utf8Char c = [224 + c.toNat / 4096, 128 + c.toNat / 64 % 64, 128 + c.toNat % 64] := by
  simp [utf8Char, show ¬ c.toNat < 128 by omega, h2, h3]

theorem utf8Char_four {c : Char} (h3 : ¬ c.toNat < 65536) :
    utf8Char c =
      [240 + c.toNat / 262144, 128 + c.toNat / 4096 % 64, 128 + c.toNat / 64 % 64,
        128 + c.toNat % 64] := by
  simp [utf8Char, show ¬ c.toNat < 128 by omega, show ¬ c.toNat < 2048 by omega, h3]

theorem utf8Char_ne_nil (c : Char) : utf8Char c ≠ [] := by
  by_cases h1 : c.toNat < 128
  · simp [utf8Char_ascii h1]
  · by_cases h2 : c.toNat < 2048
    · simp [utf8Char_two h1 h2]
    · by_cases h3 : c.toNat < 65536
      · simp [utf8Char_three h2 h3]
      · simp [utf8Char_four h3]

theorem utf8Encode_ne_nil {s : Str} (h : s ≠ []) : utf8Encode s ≠ [] := by
  cases s with
  | nil => exact absurd rfl h
  | cons c t =>
    simp only [utf8Encode]
    intro hcontra
    exact utf8Char_ne_nil c (List.append_eq_nil.mp hcontra).1

theorem utf8Encode_append (a b : Str) :
    utf8Encode (a ++ b) = utf8Encode a ++ utf8Encode b := by
  induction a with
  | nil => rfl
  | cons c t ih => simp [utf8Encode, ih]

theorem utf8Char_lt256 {c : Char} {b : Nat} (h : b ∈ utf8Char c) : b < 256 := by
  have hlt := char_toNat_lt c
  have hm64 : c.toNat % 64 < 64 := Nat.mod_lt _ (by norm_num)
  have hm64a : c.toNat / 64 % 64 < 64 := Nat.mod_lt _ (by norm_num)
  have hm64b : c.toNat / 4096 % 64 < 64 := Nat.mod_lt _ (by norm_num)
  by_cases h1 : c.toNat < 128
  · rw [utf8Char_ascii h1] at h
    simp at h
    omega
  · by_cases h2 : c.toNat < 2048
    · rw [utf8Char_two h1 h2] at h
      have : c.toNat / 64 < 32 := by omega
      simp at h
      rcases h with h | h <;> omega
    · by_cases h3 : c.toNat < 65536
      · rw [utf8Char_three h2 h3] at h
        have : c.toNat / 4096 < 16 := by omega
        simp at h
        rcases h with h | h | h <;> omega
      · rw [utf8Char_four h3] at h
        have : c.toNat / 262144 < 5 := by omega
        simp at h
        rcases h with h | h | h | h <;> omega

theorem utf8Encode_lt256 {s : Str} {b : Nat} (h : b ∈ utf8Encode s) : b < 256 := by
  induction s with
  | nil => simp [utf8Encode] at h
  | cons c t ih =>
    simp only [utf8Encode, List.mem_append] at h
    rcases h with h | h
    · exact utf8Char_lt256 h
    · exact ih h

theorem utf8Decode_encode (s : Str) : utf8Decode (utf8Encode s) = some s := by
  induction s with
  | nil => rfl
  | cons c t ih =>
    have hlt := char_toNat_lt c
    have hsur := char_not_surrogate c
    have hm64 : c.toNat % 64 < 64 := Nat.mod_lt _ (by norm_num)
    have hm64a : c.toNat / 64 % 64 < 64 := Nat.mod_lt _ (by norm_num)
    have hm64b : c.toNat / 4096 % 64 < 64 := Nat.mod_lt _ (by norm_num)
    simp only [utf8Encode]
    by_cases h1 : c.toNat < 128
    · rw [utf8Char_ascii h1, List.cons_append, List.nil_append]
      simp only [utf8Decode]
      rw [if_pos h1, ih]
      simp [Char.ofNat_toNat]
    · by_cases h2 : c.toNat < 2048
      · rw [utf8Char_two h1 h2]
        have hd : c.toNat / 64 ≥ 2 := by omega
        have hd2 : c.toNat / 64 < 32 := by omega
        simp only [List.cons_append, List.nil_append]
        simp only [utf8Decode]
        rw [if_neg (by omega), if_neg (by omega), if_pos (by omega)]
        simp only [utf8D2]
        rw [if_pos (by constructor; constructor <;> omega; omega)]
        have hn : (192 + c.toNat / 64 - 192) * 64 + (128 + c.toNat % 64 - 128) = c.toNat := by
          omega
        rw [hn, ih]
        simp [Char.ofNat_toNat]
      · by_cases h3 : c.toNat < 65536
        · rw [utf8Char_three h2 h3]
          have hd : c.toNat / 4096 < 16 := by omega
          simp only [List.cons_append, List.nil_append]
          simp only [utf8Decode]
          rw [if_neg (by omega), if_neg (by omega), if_neg (by omega), if_pos (by omega)]
          simp only [utf8D3]
          have hn : (224 + c.toNat / 4096 - 224) * 4096 +
              (128 + c.toNat / 64 % 64 - 128) * 64 + (128 + c.toNat % 64 - 128)
              = c.toNat := by omega
          rw [if_pos (by rw [hn]; exact ⟨⟨by omega, by omega⟩, ⟨by omega, by omega⟩,
              by omega, hsur⟩)]
          rw [hn, ih]
          simp [Char.ofNat_toNat]
        · rw [utf8Char_four h3]
          have hd : c.toNat / 262144 < 5 := by omega
          simp only [List.cons_append, List.nil_append]
          simp only [utf8Decode]
          rw [if_neg (by omega), if_neg (by omega), if_neg (by omega), if_neg (by omega)]
          simp only [utf8D4]
          have hn : (240 + c.toNat / 262144 - 240) * 262144 +
              (128 + c.toNat / 4096 % 64 - 128) * 4096 +
              (128 + c.toNat / 64 % 64 - 128) * 64 + (128 + c.toNat % 64 - 128)
              = c.toNat := by omega
          rw [if_pos (by rw [hn]; exact ⟨⟨by omega, by omega⟩, ⟨by omega, by omega⟩,
              ⟨by omega, by omega⟩, by omega, by omega⟩)]
          rw [hn, ih]
          simp [Char.ofNat_toNat]

theorem utf8Encode_inj {a b : Str} (h : utf8Encode a = utf8Encode b) : a = b := by
  have ha := utf8Decode_encode a
  have hb := utf8Decode_encode b
  rw [h, hb] at ha
  exact (Option.some.inj ha).symm

/-! ### Helper lemmas: base64url -/

theorem b64_lookup_fin : ∀ i : Fin 64, b64Val (b64Char i.1) = some i.1 := by decide

theorem b64Val_b64Char {n : Nat} (h : n < 64) : b64Val (b64Char n) = some n :=
  b64_lookup_fin ⟨n, h⟩

theorem b64Char_props_fin :
    ∀ i : Fin 64, b64Char i.1 ≠ '.' ∧ (b64Char i.1).toNat < 128 := by decide

theorem b64Char_ne_dot {n : Nat} (h : n < 64) : b64Char n ≠ '.' :=
  (b64Char_props_fin ⟨n, h⟩).1

theorem b64Encode_ne_nil {l : List Nat} (h : l ≠ []) : b64Encode l ≠ [] := by
  match l with
  | [] => exact absurd rfl h
  | [a] => simp [b64Encode]
  | [a, b] => simp [b64Encode]
  | a :: b :: c :: t => simp [b64Encode]

theorem b64Encode_chars {l : List Nat} (h : ∀ b ∈ l, b < 256) :
    ∀ c ∈ b64Encode l, ∃ k, k < 64 ∧ c = b64Char k := by
  induction l using b64Encode.induct with
  | case1 => simp [b64Encode]
  | case2 a =>
    have ha : a < 256 := h a (by simp)
    intro c hc
    simp [b64Encode] at hc
    rcases hc with hc | hc
    · exact ⟨a / 4, by omega, hc⟩
    · exact ⟨a % 4 * 16, by omega, hc⟩
  | case3 a b =>
    have ha : a < 256 := h a (by simp)
    have hb : b < 256 := h b (by simp)
    intro c hc
    simp [b64Encode] at hc
    rcases hc with hc | hc | hc
    · exact ⟨a / 4, by omega, hc⟩
    · exact ⟨a % 4 * 16 + b / 16, by omega, hc⟩
    · exact ⟨b % 16 * 4, by omega, hc⟩
  | case4 a b c t ih =>
    have ha : a < 256 := h a (by simp)
    have hb : b < 256 := h b (by simp)
    have hc256 : c < 256 := h c (by simp)
    have ht : ∀ x ∈ t, x < 256 := fun x hx => h x (by simp [hx])
    intro x hx
    simp only [b64Encode, List.mem_cons] at hx
    rcases hx with hx | hx | hx | hx | hx
    · exact ⟨a / 4, by omega, hx⟩
    · exact ⟨a % 4 * 16 + b / 16, by omega, hx⟩
    · exact ⟨b % 16 * 4 + c / 64, by omega, hx⟩
    · exact ⟨c % 64, by omega, hx⟩
    · exact ih ht x hx

theorem b64Encode_no_dot {l : List Nat} (h : ∀ b ∈ l, b < 256) : '.' ∉ b64Encode l := by
  intro hmem
  rcases b64Encode_chars h '.' hmem with ⟨k, hk, heq⟩
  exact b64Char_ne_dot hk heq.symm

theorem b64Decode_encode {l : List Nat} (h : ∀ b ∈ l, b < 256) :
    b64Decode (b64Encode l) = some l := by
  induction l using b64Encode.induct with
  | case1 => rfl
  | case2 a =>
    have ha : a < 256 := h a (by simp)
    simp only [b64Encode, b64Decode, b64Val_b64Char (show a / 4 < 64 by omega),
      b64Val_b64Char (show a % 4 * 16 < 64 by omega)]
    simp only [Option.bind_eq_bind, Option.some_bind]
    congr 1
    have : a / 4 * 4 + a % 4 * 16 / 16 = a := by omega
    rw [this]
  | case3 a b =>
    have ha : a < 256 := h a (by simp)
    have hb : b < 256 := h b (by simp)
    simp only [b64Encode, b64Decode, b64Val_b64Char (show a / 4 < 64 by omega),
      b64Val_b64Char (show a % 4 * 16 + b / 16 < 64 by omega),
      b64Val_b64Char (show b % 16 * 4 < 64 by omega)]
    simp only [Option.bind_eq_bind, Option.some_bind]
    congr 1
    have h1 : a / 4 * 4 + (a % 4 * 16 + b / 16) / 16 = a := by omega
    have h2 : (a % 4 * 16 + b / 16) % 16 * 16 + b % 16 * 4 / 4 = b := by omega
    rw [h1, h2]
  | case4 a b c t ih =>
    have ha : a < 256 := h a (by simp)
    have hb : b < 256 := h b (by simp)
    have hc : c < 256 := h c (by simp)
    have ht : ∀ x ∈ t, x < 256 := fun x hx => h x (by simp [hx])
    have hrec := ih ht
    cases henc : b64Encode t with
    | nil =>
      rw [henc] at hrec
      have ht0 : t = [] := by
        have h0 := hrec
        simp only [b64Decode] at h0
        exact (Option.some.inj h0).symm
      subst ht0
      simp only [b64Encode, henc]
      simp only [b64Decode, b64Val_b64Char (show a / 4 < 64 by omega),
        b64Val_b64Char (show a % 4 * 16 + b / 16 < 64 by omega),
        b64Val_b64Char (show b % 16 * 4 + c / 64 < 64 by omega),
        b64Val_b64Char (show c % 64 < 64 by omega)]
      simp only [hrec, Option.bind_eq_bind, Option.some_bind]
      congr 1
      have h1 : a / 4 * 4 + (a % 4 * 16 + b / 16) / 16 = a := by omega
      have h2 : (a % 4 * 16 + b / 16) % 16 * 16 + (b % 16 * 4 + c / 64) / 4 = b := by omega
      have h3 : (b % 16 * 4 + c / 64) % 4 * 64 + c % 64 = c := by omega
      rw [h1, h2, h3]
    | cons e es =>
      rw [henc] at hrec
      simp only [b64Encode, henc]
      simp only [b64Decode, b64Val_b64Char (show a / 4 < 64 by omega),
        b64Val_b64Char (show a % 4 * 16 + b / 16 < 64 by omega),
        b64Val_b64Char (show b % 16 * 4 + c / 64 < 64 by omega),
        b64Val_b64Char (show c % 64 < 64 by omega)]
      simp only [hrec, Option.bind_eq_bind, Option.some_bind]
      congr 1
      have h1 : a / 4 * 4 + (a % 4 * 16 + b / 16) / 16 = a := by omega
      have h2 : (a % 4 * 16 + b / 16) % 16 * 16 + (b % 16 * 4 + c / 64) / 4 = b := by omega
      have h3 : (b % 16 * 4 + c / 64) % 4 * 64 + c % 64 = c := by omega
      rw [h1, h2, h3]

/-! ### Helper lemmas: dot-splitting -/

theorem splitDot_ne_nil (s : Str) : splitDot s ≠ [] := by
  induction s with
  | nil => simp [splitDot]
  | cons c t ih =>
    by_cases hc : c = '.'
    · simp [splitDot, hc]
    · simp only [splitDot, if_neg hc]
      cases h : splitDot t with
      | nil => simp
      | cons g gs => simp

theorem splitDot_noDot {s : Str} (h : '.' ∉ s) : splitDot s = [s] := by
  induction s with
  | nil => rfl
  | cons c t ih =>
    have hc : c ≠ '.' := fun hcontra => h (by simp [hcontra])
    have ht : '.' ∉ t := fun hcontra => h (by simp [hcontra])
    simp only [splitDot, if_neg hc, ih ht]

theorem splitDot_append {p t : Str} (hp : '.' ∉ p) :
    splitDot (p ++ '.' :: t) = p :: splitDot t := by
  induction p with
  | nil => simp [splitDot]
  | cons c q ih =>
    have hc : c ≠ '.' := fun hcontra => hp (by simp [hcontra])
    have hq : '.' ∉ q := fun hcontra => hp (by simp [hcontra])
    simp only [List.cons_append, splitDot, if_neg hc, List.append_eq, ih hq]

/-! ### Helper lemmas: JSON serialise/parse round-trip -/

theorem strfyV_ne_nil (v : Json) : strfyV v ≠ [] := by
  cases v with
  | null => simp [strfyV]
  | bool b => cases b <;> simp [strfyV]
  | num i => simpa [strfyV] using intToStr_ne_nil i
  | str s => simp [strfyV]
  | arr xs => simp [strfyV]
  | obj fs => simp [strfyV]

theorem strfyV_length_pos (v : Json) : 0 < (strfyV v).length :=
  List.length_pos.mpr (strfyV_ne_nil v)

theorem intToStr_head {i : Int} {c : Char} {cs : Str} (h : intToStr i = c :: cs) :
    isDigitC c = true ∨ c = '-' := by
  unfold intToStr at h
  by_cases hi : i < 0
  · rw [if_pos hi] at h
    right
    exact (List.cons.injEq _ _ _ _ ▸ h).1.symm
  · rw [if_neg hi] at h
    left
    exact natToStr_all_digits (by rw [h]; exact List.mem_cons_self _ _)

theorem num_head_ne {c : Char} (h : isDigitC c = true ∨ c = '-') :
    c ≠ 'n' ∧ c ≠ 't' ∧ c ≠ 'f' ∧ c ≠ quoteC ∧ c ≠ '[' ∧ c ≠ braceL := by
  rcases h with h | h
  · refine ⟨?_, ?_, ?_, ?_, ?_, ?_⟩ <;>
      · intro he
        subst he
        exact absurd h (by decide)
  · subst h
    exact ⟨by decide, by decide, by decide, by decide, by decide, by decide⟩

theorem strfyV_head_ne_rb {v : Json} {c2 : Char} {cs : Str}
    (h : strfyV v = c2 :: cs) : c2 ≠ ']' := by
  cases v with
  | null =>
    have : c2 = 'n' := by
      have := h.symm
      simp [strfyV] at this
      exact this.1
    subst this; decide
  | bool b =>
    cases b with
    | true =>
      have : c2 = 't' := by
        have := h.symm
        simp [strfyV] at this
        exact this.1
      subst this; decide
    | false =>
      have : c2 = 'f' := by
        have := h.symm
        simp [strfyV] at this
        exact this.1
      subst this; decide
  | num i =>
    rcases intToStr_head (by simpa [strfyV] using h) with hd | hd
    · intro he
      subst he
      exact absurd hd (by decide)
    · subst hd; decide
  | str s =>
    have : c2 = quoteC := by
      have := h.symm
      simp [strfyV] at this
      exact this.1
    subst this; decide
  | arr xs =>
    have : c2 = '[' := by
      have := h.symm
      simp [strfyV] at this
      exact this.1
    subst this; decide
  | obj fs =>
    have : c2 = braceL := by
      have := h.symm
      simp [strfyV] at this
      exact this.1
    subst this; decide

theorem ndNil : nonDigitStart [] := by
  intro c h
  simp at h

theorem ndComma (r : Str) : nonDigitStart (',' :: r) := by
  intro c h
  simp at h
  subst h
  decide

theorem ndRBracket (r : Str) : nonDigitStart (']' :: r) := by
  intro c h
  simp at h
  subst h
  decide

theorem ndRBrace (r : Str) : nonDigitStart (braceR :: r) := by
  intro c h
  simp at h
  subst h
  decide

theorem parser_rt : ∀ f,
    (∀ v rest, nonDigitStart rest → (strfyV v).length < f →
      pV f (strfyV v ++ rest) = some (v, rest)) ∧
    (∀ x xs rest, (strfyL (.cons x xs)).length + 1 < f →
      pE f (strfyL (.cons x xs) ++ ']' :: rest) = some (.cons x xs, rest)) ∧
    (∀ k v fs rest, (strfyF (.cons k v fs)).length + 1 < f →
      pF f (strfyF (.cons k v fs) ++ braceR :: rest) = some (.cons k v fs, rest)) := by
  intro f
  induction f using Nat.strong_induction_on with
  | _ f ih =>
    match f with
    | 0 =>
      refine ⟨fun v rest _ h => ?_, fun x xs rest h => ?_, fun k v fs rest h => ?_⟩ <;> omega
    | f + 1 =>
      obtain ⟨ihV, ihE, ihF⟩ := ih f (by omega)
      refine ⟨?_, ?_, ?_⟩
      · intro v rest hnd hlen
        cases v with
        | null => simp [strfyV, pV]
        | bool b => cases b <;> simp [strfyV, pV]
        | num i =>
          cases hgo : intToStr i with
          | nil => exact absurd hgo (intToStr_ne_nil i)
          | cons c cs =>
            obtain ⟨h1, h2, h3, h4, h5, h6⟩ := num_head_ne (intToStr_head hgo)
            show pV (f + 1) (intToStr i ++ rest) = some (.num i, rest)
            rw [hgo, List.cons_append, pV.eq_def]
            simp only []
            rw [if_neg h1, if_neg h2, if_neg h3, if_neg h4, if_neg h5, if_neg h6,
              ← List.cons_append, ← hgo, pNum_intToStr i rest hnd]
            rfl
        | str s =>
          have heq : strfyV (.str s) ++ rest = quoteC :: (escapeStr s ++ quoteC :: rest) := by
            simp [strfyV]
          rw [heq, pV.eq_def]
          simp [pStr_escape, show quoteC ≠ 'n' by decide, show quoteC ≠ 't' by decide,
            show quoteC ≠ 'f' by decide]
        | arr xs =>
          cases xs with
          | nil =>
            have heq : strfyV (.arr .nil) ++ rest = '[' :: ']' :: rest := by
              simp [strfyV, strfyL]
            rw [heq, pV.eq_def]
            simp [show '[' ≠ quoteC by decide]
          | cons x xs' =>
            obtain ⟨c2, cs, hx⟩ := List.exists_cons_of_ne_nil (strfyV_ne_nil x)
            have hc2 : c2 ≠ ']' := strfyV_head_ne_rb hx
            have hδ : ∃ δ, strfyL (.cons x xs') = strfyV x ++ δ := by
              cases xs' with
              | nil => exact ⟨[], by simp [strfyL]⟩
              | cons y ys => exact ⟨',' :: strfyL (.cons y ys), rfl⟩
            obtain ⟨δ, hLδ⟩ := hδ
            have hcons : strfyL (.cons x xs') ++ ']' :: rest = c2 :: (cs ++ δ ++ ']' :: rest) := by
              rw [hLδ, hx]
              simp
            have hlenV : (strfyV (.arr (.cons x xs'))).length
                = (strfyL (.cons x xs')).length + 2 := by
              simp [strfyV]
            have hlenL : (strfyL (.cons x xs')).length + 1 < f := by omega
            have heq : strfyV (.arr (.cons x xs')) ++ rest
                = '[' :: (strfyL (.cons x xs') ++ ']' :: rest) := by
              simp [strfyV]
            rw [heq, hcons, pV.eq_def]
            simp only []
            simp only [if_true, if_neg hc2]
            rw [← hcons, ihE x xs' rest hlenL]
            rfl
        | obj fs =>
          cases fs with
          | nil =>
            have heq : strfyV (.obj .nil) ++ rest = braceL :: braceR :: rest := by
              simp [strfyV, strfyF]
            rw [heq, pV.eq_def]
            simp [show braceL ≠ 'n' by decide, show braceL ≠ 't' by decide,
              show braceL ≠ 'f' by decide, show braceL ≠ quoteC by decide,
              show braceL ≠ '[' by decide]
          | cons k v fs' =>
            have hcons : strfyF (.cons k v fs') ++ braceR :: rest
                = quoteC :: ((escapeStr k ++ quoteC :: ':' :: strfyV v ++
                    (match fs' with
                      | .nil => []
                      | .cons k2 v2 t => ',' :: strfyF (.cons k2 v2 t))) ++ braceR :: rest) := by
              cases fs' <;> simp [strfyF]
            have hlenV : (strfyV (.obj (.cons k v fs'))).length
                = (strfyF (.cons k v fs')).length + 2 := by
              simp [strfyV]
            have hlenF : (strfyF (.cons k v fs')).length + 1 < f := by omega
            have heq : strfyV (.obj (.cons k v fs')) ++ rest
                = braceL :: (strfyF (.cons k v fs') ++ braceR :: rest) := by
              simp [strfyV]
            rw [heq, hcons, pV.eq_def]
            simp only []
            simp only [if_true, if_neg (show ¬ quoteC = braceR by decide)]
            rw [← hcons, ihF k v fs' rest hlenF]
            rfl
      · intro x xs rest hlen
        have hxpos := strfyV_length_pos x
        cases xs with
        | nil =>
          have hv : pV f (strfyV x ++ ']' :: rest) = some (x, ']' :: rest) :=
            ihV x (']' :: rest) (ndRBracket rest) (by simp [strfyL] at hlen; omega)
          show pE (f + 1) (strfyV x ++ ']' :: rest) = some (.cons x .nil, rest)
          rw [pE.eq_def]
          simp [hv]
        | cons y ys =>
          have hlen2 : (strfyL (.cons x (.cons y ys))).length
              = (strfyV x).length + 1 + (strfyL (.cons y ys)).length := by
            simp [strfyL]
            omega
          have hv : pV f (strfyV x ++ ',' :: (strfyL (.cons y ys) ++ ']' :: rest))
              = some (x, ',' :: (strfyL (.cons y ys) ++ ']' :: rest)) :=
            ihV x _ (ndComma _) (by omega)
          have he : pE f (strfyL (.cons y ys) ++ ']' :: rest)
              = some (.cons y ys, rest) :=
            ihE y ys rest (by omega)
          have heq : strfyL (.cons x (.cons y ys)) ++ ']' :: rest
              = strfyV x ++ ',' :: (strfyL (.cons y ys) ++ ']' :: rest) := by
            simp [strfyL]
          show pE (f + 1) (strfyL (.cons x (.cons y ys)) ++ ']' :: rest)
            = some (.cons x (.cons y ys), rest)
          rw [heq, pE.eq_def]
          simp [hv, he]
      · intro k v fs rest hlen
        have hvpos := strfyV_length_pos v
        cases fs with
        | nil =>
          have hlen2 : (strfyF (.cons k v .nil)).length
              = (escapeStr k).length + 3 + (strfyV v).length := by
            simp [strfyF]
            omega
          have hv : pV f (strfyV v ++ braceR :: rest) = some (v, braceR :: rest) :=
            ihV v _ (ndRBrace rest) (by omega)
          have heq : strfyF (.cons k v .nil) ++ braceR :: rest
              = quoteC :: (escapeStr k ++ quoteC :: (':' :: (strfyV v ++ braceR :: rest))) := by
            simp [strfyF]
          show pF (f + 1) (strfyF (.cons k v .nil) ++ braceR :: rest)
            = some (.cons k v .nil, rest)
          rw [heq, pF.eq_def]
          simp only []
          rw [pStr_escape]
          simp [hv, show braceR ≠ ',' by decide]
        | cons k2 v2 fs' =>
          have hlen2 : (strfyF (.cons k v (.cons k2 v2 fs'))).length
              = (escapeStr k).length + 3 + (strfyV v).length + 1 +
                (strfyF (.cons k2 v2 fs')).length := by
            simp [strfyF]
            omega
          have hv : pV f (strfyV v ++ ',' :: (strfyF (.cons k2 v2 fs') ++ braceR :: rest))
              = some (v, ',' :: (strfyF (.cons k2 v2 fs') ++ braceR :: rest)) :=
            ihV v _ (ndComma _) (by omega)
          have hf : pF f (strfyF (.cons k2 v2 fs') ++ braceR :: rest)
              = some (.cons k2 v2 fs', rest) :=
            ihF k2 v2 fs' rest (by omega)
          have heq : strfyF (.cons k v (.cons k2 v2 fs')) ++ braceR :: rest
              = quoteC :: (escapeStr k ++ quoteC ::
                  (':' :: (strfyV v ++ ',' :: (strfyF (.cons k2 v2 fs') ++ braceR :: rest)))) := by
            simp [strfyF]
          show pF (f + 1) (strfyF (.cons k v (.cons k2 v2 fs')) ++ braceR :: rest)
            = some (.cons k v (.cons k2 v2 fs'), rest)
          rw [heq, pF.eq_def]
          simp only []
          rw [pStr_escape]
          simp [hv, hf]

/-- `JSON.parse` is a left inverse of `JSON.stringify` on the modelled JSON
fragment. -/
theorem jsonParse_strfyV (v : Json) : jsonParse (strfyV v) = some v := by
  have h := (parser_rt ((strfyV v).length + 1)).1 v [] ndNil (by omega)
  rw [List.append_nil] at h
  unfold jsonParse
  rw [h]

/-! ### Helper lemmas: session token codec -/

theorem base64UrlDecode_encode (s : Str) :
    base64UrlDecodeS (base64UrlEncodeS s) = some s := by
  unfold base64UrlDecodeS base64UrlEncodeS
  rw [b64Decode_encode (fun b hb => utf8Encode_lt256 hb)]
  simp [utf8Decode_encode]

theorem base64UrlEncode_no_dot (s : Str) : '.' ∉ base64UrlEncodeS s :=
  b64Encode_no_dot (fun b hb => utf8Encode_lt256 hb)

theorem base64UrlEncode_ne_nil {s : Str} (h : s ≠ []) : base64UrlEncodeS s ≠ [] :=
  b64Encode_ne_nil (utf8Encode_ne_nil h)

theorem jGet_session_uid (u iat : Int) :
    jGet (sessionPayloadJson u iat) "userId".toList = some (.num u) := rfl

theorem jGet_session_iat (u iat : Int) :
    jGet (sessionPayloadJson u iat) "iat".toList = some (.num iat) := rfl

/-- Fully evaluated verification of a token the process itself built. -/
theorem verify_build (sign : Str → Str) (hne : ∀ s, sign s ≠ [])
    (hdot : ∀ s, '.' ∉ sign s) (u iat ttl now : Int) :
    verifySessionCookie sign ttl (buildSessionCookie sign u iat) now =
      (if u = 0 then none
       else if iat = 0 then none
       else if ttl < now - iat then none
       else some (.num u)) := by
  set payload := base64UrlEncodeS (strfyV (sessionPayloadJson u iat)) with hpayload
  have hpnd : '.' ∉ payload := base64UrlEncode_no_dot _
  have hpne : payload ≠ [] := base64UrlEncode_ne_nil (strfyV_ne_nil _)
  have hsplit : splitDot (payload ++ '.' :: sign payload) = [payload, sign payload] := by
    rw [splitDot_append hpnd, splitDot_noDot (hdot payload)]
  show verifySessionCookie sign ttl (payload ++ '.' :: sign payload) now = _
  unfold verifySessionCookie
  rw [hsplit]
  simp only [List.headD_cons, List.drop_succ_cons, List.drop_zero, List.head?_cons,
    if_neg hpne, if_neg (hne payload), if_true]
  rw [hpayload, base64UrlDecode_encode]
  simp only [Option.some_bind, jsonParse_strfyV]
  rw [jGet_session_uid, jGet_session_iat]
  by_cases hu : u = 0
  · simp [hu, jsTruthyO, jsTruthy]
  · by_cases hiat : iat = 0
    · simp [hu, hiat, jsTruthyO, jsTruthy]
    · by_cases httl : ttl < now - iat
      · simp [hu, hiat, httl, jsTruthyO, jsTruthy, jsToNumber, jGet_session_uid]
      · simp [hu, hiat, httl, jsTruthyO, jsTruthy, jsToNumber, jGet_session_uid]

/-- Verification never succeeds on a token without a dot (the destructured
`signature` is `undefined`). -/
theorem verify_none_of_no_dot (sign : Str → Str) (ttl : Int) {value : Str}
    (h : '.' ∉ value) (now : Int) :
    verifySessionCookie sign ttl value now = none := by
  unfold verifySessionCookie
  rw [splitDot_noDot h]
  simp

/-- Verification fails when the first two dot-separated segments are empty
or do not form a valid (payload, MAC) pair. -/
theorem verify_none_of_badpair (sign : Str → Str) (ttl : Int) {value p s' : Str}
    {X : List Str} (hsplit : splitDot value = p :: s' :: X)
    (hfail : p = [] ∨ s' = [] ∨ s' ≠ sign p) (now : Int) :
    verifySessionCookie sign ttl value now = none := by
  unfold verifySessionCookie
  rw [hsplit]
  simp only [List.headD_cons, List.drop_succ_cons, List.drop_zero, List.head?_cons]
  by_cases hp : p = []
  · simp [hp]
  · by_cases hs : s' = []
    · simp [hp, hs]
    · have hmac : s' ≠ sign p := by
        rcases hfail with h | h | h
        · exact absurd h hp
        · exact absurd h hs
        · exact h
      have : utf8Encode s' ≠ utf8Encode (sign p) := fun hEq => hmac (utf8Encode_inj hEq)
      simp [hp, hs, this]

theorem set_nodot {l : Str} {i : Nat} {c : Char} (hl : '.' ∉ l) (hc : c ≠ '.') :
    '.' ∉ l.set i c := by
  intro hm
  rcases List.mem_or_eq_of_mem_set hm with h | h
  · exact hl h
  · exact hc h.symm

theorem set_ne_self {l : Str} {i : Nat} {c : Char} (hi : i < l.length)
    (hc : c ≠ l.get ⟨i, hi⟩) : l.set i c ≠ l := by
  intro hEq
  apply hc
  have h1 : (l.set i c)[i]? = some c := List.getElem?_set_self hi
  rw [hEq, List.getElem?_eq_getElem hi] at h1
  have := Option.some.inj h1
  simpa [List.get_eq_getElem] using this.symm

/-- **C4** (session token round-trip, tamper-rejection, TTL): for every
account id `u` and issue instant `iat` (both nonzero, as account ids and
clock readings are), with `sign` the process's HMAC (assumed only to be a
deterministic function with nonempty, dot-free base64url output):
(1) building a session token and verifying it before the TTL elapses yields
identity `u`; (2) a token differing from the built one in any single
character fails verification at every instant, given that the MAC admits no
second preimage of the payload's signature (`H1`) and that no suffix of the
payload is a valid MAC of the corresponding prefix (`H2` — both hold for a
secure MAC except with negligible probability); (3) a token whose issue
instant is more than the TTL before the current instant fails verification
even though its signature is valid. -/
theorem c4_session_token_codec
    (sign : Str → Str) (hne : ∀ s, sign s ≠ []) (hdot : ∀ s, '.' ∉ sign s)
    (u iat ttl now : Int) (hu : u ≠ 0) (hiat : iat ≠ 0) :
    (now - iat ≤ ttl →
      verifySessionCookie sign ttl (buildSessionCookie sign u iat) now = some (.num u)) ∧
    (∀ i c (hi : i < (buildSessionCookie sign u iat).length),
      c ≠ (buildSessionCookie sign u iat).get ⟨i, hi⟩ →
      (∀ p', p' ≠ base64UrlEncodeS (strfyV (sessionPayloadJson u iat)) →
        sign p' ≠ sign (base64UrlEncodeS (strfyV (sessionPayloadJson u iat)))) →
      (∀ j, j < (base64UrlEncodeS (strfyV (sessionPayloadJson u iat))).length →
        (base64UrlEncodeS (strfyV (sessionPayloadJson u iat))).drop (j + 1) ≠
          sign ((base64UrlEncodeS (strfyV (sessionPayloadJson u iat))).take j)) →
      ∀ now2,
        verifySessionCookie sign ttl ((buildSessionCookie sign u iat).set i c) now2 = none) ∧
    (ttl < now - iat →
      verifySessionCookie sign ttl (buildSessionCookie sign u iat) now = none) := by
  refine ⟨?_, ?_, ?_⟩
  · intro h
    rw [verify_build sign hne hdot]
    simp [hu, hiat, not_lt.mpr h]
  · intro i c hi hc H1 H2 now2
    set P := base64UrlEncodeS (strfyV (sessionPayloadJson u iat)) with hP
    have htok : buildSessionCookie sign u iat = P ++ '.' :: sign P := rfl
    have hPnd : '.' ∉ P := base64UrlEncode_no_dot _
    have hPne : P ≠ [] := base64UrlEncode_ne_nil (strfyV_ne_nil _)
    have hSnd : '.' ∉ sign P := hdot P
    have hSne : sign P ≠ [] := hne P
    have hi2 : i < (P ++ '.' :: sign P).length := hi
    have hc2 : c ≠ (P ++ '.' :: sign P).get ⟨i, hi2⟩ := hc
    show verifySessionCookie sign ttl ((P ++ '.' :: sign P).set i c) now2 = none
    have hlen : (P ++ '.' :: sign P).length = P.length + 1 + (sign P).length := by
      simp
      omega
    rcases Nat.lt_trichotomy i P.length with hlt | heqI | hgtI
    · -- flip inside the payload
      have hset : (P ++ '.' :: sign P).set i c = P.set i c ++ '.' :: sign P := by
        rw [List.set_append, if_pos hlt]
      have hgetP : (P ++ '.' :: sign P).get ⟨i, hi2⟩ = P.get ⟨i, hlt⟩ := by
        simp [List.get_eq_getElem, List.getElem_append_left hlt]
      rw [hgetP] at hc2
      by_cases hcd : c = '.'
      · subst hcd
        have hdecomp : P.set i '.' = P.take i ++ '.' :: P.drop (i + 1) := by
          rw [List.set_eq_take_append_cons_drop, if_pos hlt]
        have htake : '.' ∉ P.take i := fun hm => hPnd (List.take_subset _ _ hm)
        have hdrop : '.' ∉ P.drop (i + 1) := fun hm => hPnd (List.drop_subset _ _ hm)
        have hsplit : splitDot (P.set i '.' ++ '.' :: sign P)
            = P.take i :: P.drop (i + 1) :: [sign P] := by
          rw [hdecomp, List.append_assoc, List.cons_append, splitDot_append htake,
            splitDot_append hdrop, splitDot_noDot hSnd]
        rw [hset]
        exact verify_none_of_badpair sign ttl hsplit (Or.inr (Or.inr (H2 i hlt))) now2
      · have hP'nd : '.' ∉ P.set i c := set_nodot hPnd hcd
        have hP'ne : P.set i c ≠ P := set_ne_self hlt hc2
        have hsplit : splitDot (P.set i c ++ '.' :: sign P) = P.set i c :: [sign P] := by
          rw [splitDot_append hP'nd, splitDot_noDot hSnd]
        rw [hset]
        refine verify_none_of_badpair sign ttl hsplit (Or.inr (Or.inr ?_)) now2
        exact fun hEq => H1 (P.set i c) hP'ne hEq.symm
    · -- flip of the separating dot
      subst heqI
      have hset : (P ++ '.' :: sign P).set P.length c = P ++ c :: sign P := by
        rw [List.set_append, if_neg (by omega)]
        simp
      have hgetP : (P ++ '.' :: sign P).get ⟨P.length, hi2⟩ = '.' := by
        simp only [List.get_eq_getElem]
        rw [List.getElem_append_right (le_refl P.length)]
        simp
      rw [hgetP] at hc2
      have hnd : '.' ∉ P ++ c :: sign P := by
        intro hm
        rcases List.mem_append.mp hm with hm | hm
        · exact hPnd hm
        · rcases List.mem_cons.mp hm with hm | hm
          · exact hc2 hm.symm
          · exact hSnd hm
      rw [hset]
      exact verify_none_of_no_dot sign ttl hnd now2
    · -- flip inside the signature
      obtain ⟨j, rfl⟩ : ∃ j, i = P.length + 1 + j := ⟨i - P.length - 1, by omega⟩
      have hj : j < (sign P).length := by
        rw [hlen] at hi2
        omega
      have hidx : P.length + 1 + j - P.length = j + 1 := by omega
      have hset : (P ++ '.' :: sign P).set (P.length + 1 + j) c
          = P ++ '.' :: (sign P).set j c := by
        rw [List.set_append, if_neg (by omega)]
        simp only [hidx]
        simp
      have hgetP : (P ++ '.' :: sign P).get ⟨P.length + 1 + j, hi2⟩
          = (sign P).get ⟨j, hj⟩ := by
        simp only [List.get_eq_getElem]
        rw [List.getElem_append_right (by omega : P.length ≤ P.length + 1 + j)]
        simp only [hidx, List.getElem_cons_succ]
      rw [hgetP] at hc2
      by_cases hcd : c = '.'
      · subst hcd
        have hdecomp : (sign P).set j '.'
            = (sign P).take j ++ '.' :: (sign P).drop (j + 1) := by
          rw [List.set_eq_take_append_cons_drop, if_pos hj]
        have htake : '.' ∉ (sign P).take j := fun hm => hSnd (List.take_subset _ _ hm)
        have hdrop : '.' ∉ (sign P).drop (j + 1) := fun hm => hSnd (List.drop_subset _ _ hm)
        have hsplit : splitDot (P ++ '.' :: ((sign P).take j ++
            '.' :: (sign P).drop (j + 1)))
            = P :: (sign P).take j :: [(sign P).drop (j + 1)] := by
          rw [splitDot_append hPnd, splitDot_append htake, splitDot_noDot hdrop]
        rw [hset, hdecomp]
        refine verify_none_of_badpair sign ttl hsplit (Or.inr (Or.inr ?_)) now2
        intro hEq
        have hlt' : ((sign P).take j).length < (sign P).length := by
          simp [List.length_take]
          omega
        rw [hEq] at hlt'
        exact lt_irrefl _ hlt'
      · have hS'nd : '.' ∉ (sign P).set j c := set_nodot hSnd hcd
        have hS'ne : (sign P).set j c ≠ sign P := set_ne_self hj hc2
        have hsplit : splitDot (P ++ '.' :: (sign P).set j c)
            = P :: [(sign P).set j c] := by
          rw [splitDot_append hPnd, splitDot_noDot hS'nd]
        rw [hset]
        exact verify_none_of_badpair sign ttl hsplit (Or.inr (Or.inr hS'ne)) now2
  · intro h
    rw [verify_build sign hne hdot]
    simp [hu, hiat, h]

/-- Witness for C4 at a concrete MAC, account id 7, issue instant 500,
TTL 1000: the round trip yields 7; flipping token byte 0 to `X` fails; a
verification 99999499 ms after issue fails. -/
theorem c4_session_token_codec_witness :
    verifySessionCookie
        (fun s => if s = "eyJ1c2VySWQiOjcsImlhdCI6NTAwfQ".toList
          then "!A".toList else "!B".toList) 1000
        (buildSessionCookie
          (fun s => if s = "eyJ1c2VySWQiOjcsImlhdCI6NTAwfQ".toList
            then "!A".toList else "!B".toList) 7 500) 900 = some (.num 7) ∧
    verifySessionCookie
        (fun s => if s = "eyJ1c2VySWQiOjcsImlhdCI6NTAwfQ".toList
          then "!A".toList else "!B".toList) 1000
        ((buildSessionCookie
          (fun s => if s = "eyJ1c2VySWQiOjcsImlhdCI6NTAwfQ".toList
            then "!A".toList else "!B".toList) 7 500).set 0 'X') 900 = none ∧
    verifySessionCookie
        (fun s => if s = "eyJ1c2VySWQiOjcsImlhdCI6NTAwfQ".toList
          then "!A".toList else "!B".toList) 1000
        (buildSessionCookie
          (fun s => if s = "eyJ1c2VySWQiOjcsImlhdCI6NTAwfQ".toList
            then "!A".toList else "!B".toList) 7 500) 99999999 = none := by
  have hK : base64UrlEncodeS (strfyV (sessionPayloadJson 7 500))
      = "eyJ1c2VySWQiOjcsImlhdCI6NTAwfQ".toList := by rfl
  have hne : ∀ s, (fun s => if s = "eyJ1c2VySWQiOjcsImlhdCI6NTAwfQ".toList
      then "!A".toList else "!B".toList) s ≠ [] := by
    intro s
    show (if s = "eyJ1c2VySWQiOjcsImlhdCI6NTAwfQ".toList
      then "!A".toList else "!B".toList) ≠ []
    by_cases h : s = "eyJ1c2VySWQiOjcsImlhdCI6NTAwfQ".toList
    · rw [if_pos h]; decide
    · rw [if_neg h]; decide
  have hdot : ∀ s, '.' ∉ (fun s => if s = "eyJ1c2VySWQiOjcsImlhdCI6NTAwfQ".toList
      then "!A".toList else "!B".toList) s := by
    intro s
    show '.' ∉ (if s = "eyJ1c2VySWQiOjcsImlhdCI6NTAwfQ".toList
      then "!A".toList else "!B".toList)
    by_cases h : s = "eyJ1c2VySWQiOjcsImlhdCI6NTAwfQ".toList
    · rw [if_pos h]; decide
    · rw [if_neg h]; decide
  obtain ⟨h1, h2, _⟩ := c4_session_token_codec
    (fun s => if s = "eyJ1c2VySWQiOjcsImlhdCI6NTAwfQ".toList
      then "!A".toList else "!B".toList)
    hne hdot 7 500 1000 900 (by decide) (by decide)
  obtain ⟨_, _, h3⟩ := c4_session_token_codec
    (fun s => if s = "eyJ1c2VySWQiOjcsImlhdCI6NTAwfQ".toList
      then "!A".toList else "!B".toList)
    hne hdot 7 500 1000 99999999 (by decide) (by decide)
  refine ⟨h1 (by decide), ?_, h3 (by decide)⟩
  refine h2 0 'X' (by decide) (by decide) ?_ ?_ 900
  · intro p' hp'
    rw [hK] at hp'
    show (if p' = "eyJ1c2VySWQiOjcsImlhdCI6NTAwfQ".toList
        then "!A".toList else "!B".toList) ≠ _
    rw [if_neg hp', hK, if_pos rfl]
    decide
  · rw [hK]
    decide

/-- Counterexample to **C8** as stated: a token for the negative account id
`-1`, signed with the process MAC, passes verification and yields identity
`-1` — the codec does not reject negative account ids (`!decoded.userId`
only rejects falsy ones). -/
theorem c8_counterexample :
    verifySessionCookie (fun _ => "SIG0".toList) 1000
      (buildSessionCookie (fun _ => "SIG0".toList) (-1) 5) 900 = some (.num (-1)) := by rfl

/-- **C8** (amended): verification rejects every validly-signed token whose
decoded payload has a missing or falsy `userId` (absent field, `0`, empty
string, `null`, or `false`), returning no identity; a negative account id
is not rejected (see the counterexample). -/
theorem c8_falsy_uid_rejected
    (sign : Str → Str) (ttl now : Int) (j : Json)
    (hne : sign (base64UrlEncodeS (strfyV j)) ≠ [])
    (hdot : '.' ∉ sign (base64UrlEncodeS (strfyV j)))
    (hfalsy : jsTruthyO (jGet j "userId".toList) = false) :
    verifySessionCookie sign ttl
      (base64UrlEncodeS (strfyV j) ++ '.' :: sign (base64UrlEncodeS (strfyV j))) now
      = none := by
  have hPnd : '.' ∉ base64UrlEncodeS (strfyV j) := base64UrlEncode_no_dot _
  have hPne : base64UrlEncodeS (strfyV j) ≠ [] := base64UrlEncode_ne_nil (strfyV_ne_nil _)
  unfold verifySessionCookie
  rw [splitDot_append hPnd, splitDot_noDot hdot]
  simp only [List.headD_cons, List.drop_succ_cons, List.drop_zero, List.head?_cons,
    if_neg hPne, if_neg hne, if_true]
  rw [base64UrlDecode_encode]
  simp only [Option.some_bind, jsonParse_strfyV]
  rw [if_pos hfalsy]

/-- Witness for C8 (amended) at `userId = 0`, a constant MAC, TTL 1000. -/
theorem c8_falsy_uid_rejected_witness :
    verifySessionCookie (fun _ => "SIG0".toList) 1000
      (base64UrlEncodeS (strfyV (sessionPayloadJson 0 5)) ++
        '.' :: (fun (_ : Str) => "SIG0".toList)
          (base64UrlEncodeS (strfyV (sessionPayloadJson 0 5)))) 900 = none := by
  exact c8_falsy_uid_rejected (fun _ => "SIG0".toList) 1000 900
    (sessionPayloadJson 0 5) (by decide) (by decide) (by rfl)

/-! ### Helper lemmas: document store -/

theorem storeGet_set (st : Store) (id id' : Str) (f : DocRecord → DocRecord) :
    storeGet (storeSet st id f) id' =
      if id' = id then (storeGet st id').map f else storeGet st id' := by
  induction st with
  | nil => by_cases h : id' = id <;> simp [storeGet, storeSet, h]
  | cons e t ih =>
    obtain ⟨k, d⟩ := e
    by_cases h1 : k = id
    · subst h1
      by_cases h2 : id' = k
      · subst h2
        simp [storeGet, storeSet]
      · have h2' : k ≠ id' := fun h => h2 h.symm
        simp [storeGet, storeSet, h2, h2', ih]
    · by_cases h2 : id' = k
      · subst h2
        have h1' : id' ≠ id := h1
        simp [storeGet, storeSet, h1, h1']
      · have h2' : k ≠ id' := fun h => h2 h.symm
        simp [storeGet, storeSet, h1, h2', ih]

theorem storeGet_del (st : Store) (id id' : Str) :
    storeGet (storeDel st id) id' = if id' = id then none else storeGet st id' := by
  induction st with
  | nil => by_cases h : id' = id <;> simp [storeGet, storeDel, h]
  | cons e t ih =>
    obtain ⟨k, d⟩ := e
    by_cases h1 : k = id
    · subst h1
      by_cases h2 : id' = k
      · subst h2
        simp [storeGet, storeDel, ih]
      · have h2' : k ≠ id' := fun h => h2 h.symm
        simp [storeGet, storeDel, h2, h2', ih]
    · by_cases h2 : id' = k
      · subst h2
        have h1' : id' ≠ id := h1
        simp [storeGet, storeDel, h1, h1']
      · have h2' : k ≠ id' := fun h => h2 h.symm
        simp [storeGet, storeDel, h1, h2', ih]

theorem storeGet_ins_of_some {st : Store} {id : Str} {doc : DocRecord}
    (h : storeGet st id = some doc) (id' : Str) (d : DocRecord) :
    storeGet (storeIns st id' d) id = some doc := by
  induction st with
  | nil => simp [storeGet] at h
  | cons e t ih =>
    obtain ⟨k, dd⟩ := e
    by_cases hk : k = id
    · subst hk
      simp [storeGet] at h
      simp [storeIns, storeGet, h]
    · simp [storeGet, hk] at h
      simpa [storeIns, storeGet, hk] using ih h

theorem storeGet_ins_self (st : Store) (id : Str) (d : DocRecord)
    (h : storeGet st id = none) : storeGet (storeIns st id d) id = some d := by
  induction st with
  | nil => simp [storeIns, storeGet]
  | cons e t ih =>
    obtain ⟨k, dd⟩ := e
    by_cases hk : k = id
    · subst hk
      simp [storeGet] at h
    · simp [storeGet, hk] at h
      simpa [storeIns, storeGet, hk] using ih h

theorem storeGet_mem {st : Store} {id : Str} {d : DocRecord}
    (h : storeGet st id = some d) : (id, d) ∈ st := by
  induction st with
  | nil => simp [storeGet] at h
  | cons e t ih =>
    obtain ⟨k, dd⟩ := e
    by_cases hk : k = id
    · subst hk
      simp [storeGet] at h
      simp [h]
    · simp [storeGet, hk] at h
      exact List.mem_cons_of_mem _ (ih h)

theorem storeGet_cleanup (st : Store) (now : Int) (id : Str) :
    storeGet (cleanupExpired st now) id = none ∨
    storeGet (cleanupExpired st now) id = storeGet st id ∨
    ∃ d, storeGet (cleanupExpired st now) id = some d ∧ (id, d) ∈ st := by
  induction st with
  | nil => left; simp [cleanupExpired, storeGet]
  | cons e t ih =>
    obtain ⟨k, d⟩ := e
    by_cases hs : sweepSelects d now
    · rcases ih with ih | ih | ⟨d2, h2, hm⟩
      · left
        simpa [cleanupExpired, hs] using ih
      · by_cases hk : k = id
        · subst hk
          have hEq : cleanupExpired ((k, d) :: t) now = cleanupExpired t now := by
            simp [cleanupExpired, hs]
          cases hget : storeGet t k with
          | none => left; rw [hEq, ih, hget]
          | some d2 =>
            right; right
            exact ⟨d2, by rw [hEq, ih, hget],
              List.mem_cons_of_mem _ (storeGet_mem hget)⟩
        · right; left
          rw [show cleanupExpired ((k, d) :: t) now = cleanupExpired t now by
            simp [cleanupExpired, hs], ih]
          simp [storeGet, hk]
      · right; right
        refine ⟨d2, ?_, by simp [hm]⟩
        simpa [cleanupExpired, hs] using h2
    · by_cases hk : k = id
      · subst hk
        right; left
        simp [cleanupExpired, hs, storeGet]
      · rcases ih with ih | ih | ⟨d2, h2, hm⟩
        · left
          simpa [cleanupExpired, hs, storeGet, hk] using ih
        · right; left
          simp [cleanupExpired, hs, storeGet, hk, ih]
        · right; right
          refine ⟨d2, ?_, by simp [hm]⟩
          simpa [cleanupExpired, hs, storeGet, hk] using h2

theorem getDoc_effect (st : Store) (id : Str) (r : PwSources) (now : Int) :
    (getDoc st id r now).2 = st ∨
    (getDoc st id r now).2 = storeDel st id ∨
    (getDoc st id r now).2 = storeSet st id
      (fun d => { d with viewCount := d.viewCount + 1, lastAccessedAt := some (toIso now) }) := by
  unfold getDoc
  repeat' split <;> first | (left; rfl) | (right; left; rfl) | (right; right; rfl) | skip

theorem putDoc_effect (maxB : Nat) (st : Store) (id : Str) (hdr qry : Option Str)
    (body : Option PutBody) (now : Int) :
    (putDoc maxB st id hdr qry body now).2 = st ∨
    (putDoc maxB st id hdr qry body now).2 = storeDel st id ∨
    ∃ b c json, body = some b ∧ b.content = some c ∧
      ensureDocSize maxB (some c) = some json ∧
      (putDoc maxB st id hdr qry body now).2 = storeSet st id
        (fun d => { d with content := json, updatedAt := toIso now }) := by
  unfold putDoc
  repeat' split <;>
    first
      | (left; rfl)
      | (right; left; rfl)
      | (right; right; exact ⟨_, _, _, rfl, by assumption, by assumption, rfl⟩)
      | skip

theorem setPasswordDoc_effect (st : Store) (id : Str) (body : Option SetPwBody) (now : Int) :
    (setPasswordDoc st id body now).2 = st ∨
    ∃ b p doc, body = some b ∧ b.password = some p ∧ storeGet st id = some doc ∧
      ¬docLocked doc = true ∧
      (setPasswordDoc st id body now).2 = storeSet st id
        (fun d => { d with passwordHash := some (hasherHash p), passwordSetAt := some (toIso now) }) := by
  unfold setPasswordDoc
  repeat' split <;>
    first
      | (left; rfl)
      | (right; exact ⟨_, _, _, rfl, by assumption, by assumption, by assumption, rfl⟩)
      | skip

theorem setExpiryDoc_effect (st : Store) (id : Str) (body : Option SetExpBody) (now : Int) :
    (setExpiryDoc st id body now).2 = st ∨
    ∃ v, (setExpiryDoc st id body now).2 = storeSet st id
      (fun d => { d with expiresAt := v }) := by
  unfold setExpiryDoc
  repeat' split <;>
    first
      | (left; rfl)
      | (right; exact ⟨_, rfl⟩)
      | skip

theorem createDoc_effect (maxB : Nat) (st : Store) (id : Str) (now : Int) :
    (createDoc maxB st id now).2 = st ∨
    ∃ json, ensureDocSize maxB (some initialDocJson) = some json ∧
      storeGet st id = none ∧
      (createDoc maxB st id now).2 = storeIns st id
        { content := json, createdAt := toIso now, updatedAt := toIso now,
          expiresAt := none, passwordHash := none, passwordSetAt := none,
          viewCount := 0, lastAccessedAt := none } := by
  unfold createDoc
  repeat' split <;>
    first
      | (left; rfl)
      | (right; exact ⟨_, by assumption, by assumption, rfl⟩)
      | skip

theorem storeSet_keys (st : Store) (id : Str) (f : DocRecord → DocRecord) :
    (storeSet st id f).map Prod.fst = st.map Prod.fst := by
  induction st with
  | nil => rfl
  | cons e t ih =>
    obtain ⟨k, d⟩ := e
    by_cases hk : k = id <;> simp [storeSet, hk, ih]

theorem storeDel_sublist (st : Store) (id : Str) : (storeDel st id).Sublist st := by
  induction st with
  | nil => simp [storeDel]
  | cons e t ih =>
    obtain ⟨k, d⟩ := e
    by_cases hk : k = id
    · simpa [storeDel, hk] using ih.cons (k, d)
    · simpa [storeDel, hk] using ih.cons₂ (k, d)

theorem cleanup_sublist (st : Store) (now : Int) : (cleanupExpired st now).Sublist st := by
  induction st with
  | nil => simp [cleanupExpired]
  | cons e t ih =>
    obtain ⟨k, d⟩ := e
    by_cases hs : sweepSelects d now
    · simpa [cleanupExpired, hs] using ih.cons (k, d)
    · simpa [cleanupExpired, hs] using ih.cons₂ (k, d)

theorem storeGet_none_not_mem {st : Store} {id : Str} (h : storeGet st id = none) :
    id ∉ st.map Prod.fst := by
  induction st with
  | nil => simp
  | cons e t ih =>
    obtain ⟨k, d⟩ := e
    by_cases hk : k = id
    · subst hk
      simp [storeGet] at h
    · simp [storeGet, hk] at h
      simp only [List.map_cons, List.mem_cons, not_or]
      exact ⟨fun h2 => hk h2.symm, ih h⟩

theorem mem_storeGet_of_nodup {st : Store} {id : Str} {d : DocRecord}
    (hnd : (st.map Prod.fst).Nodup) (hm : (id, d) ∈ st) : storeGet st id = some d := by
  induction st with
  | nil => simp at hm
  | cons e t ih =>
    obtain ⟨k, dd⟩ := e
    simp only [List.map_cons, List.nodup_cons] at hnd
    rcases List.mem_cons.mp hm with hm | hm
    · obtain ⟨rfl, rfl⟩ := Prod.mk.injEq .. ▸ hm
      simp [storeGet]
    · have hid : id ∈ t.map Prod.fst := List.mem_map.mpr ⟨(id, d), hm, rfl⟩
      have hk : k ≠ id := fun h => hnd.1 (h ▸ hid)
      simp [storeGet, hk, ih hnd.2 hm]

theorem storeIns_nodup {st : Store} {id : Str} (d : DocRecord)
    (hnd : (st.map Prod.fst).Nodup) (h : storeGet st id = none) :
    ((storeIns st id d).map Prod.fst).Nodup := by
  have hnm := storeGet_none_not_mem h
  simp only [storeIns, List.map_append, List.map_cons, List.map_nil]
  rw [List.nodup_append]
  refine ⟨hnd, List.nodup_singleton id, ?_⟩
  intro a ha hai
  rw [List.mem_singleton] at hai
  exact hnm (hai ▸ ha)

theorem applyOp_nodup (maxB : Nat) (st : Store) (op : DocOp)
    (hnd : (st.map Prod.fst).Nodup) : (((applyOp maxB st op).2).map Prod.fst).Nodup := by
  cases op with
  | create id now =>
    rcases createDoc_effect maxB st id now with h | ⟨json, _, hg, h⟩ <;>
      rw [show applyOp maxB st (.create id now) = createDoc maxB st id now from rfl, h]
    · exact hnd
    · exact storeIns_nodup _ hnd hg
  | read id r now =>
    rcases getDoc_effect st id r now with h | h | h <;>
      rw [show applyOp maxB st (.read id r now) = getDoc st id r now from rfl, h]
    · exact hnd
    · exact ((storeDel_sublist st id).map Prod.fst).nodup hnd
    · rw [storeSet_keys]; exact hnd
  | write id hdr qry body now =>
    rcases putDoc_effect maxB st id hdr qry body now with h | h | ⟨b, c, json, _, _, _, h⟩ <;>
      rw [show applyOp maxB st (.write id hdr qry body now) =
            putDoc maxB st id hdr qry body now from rfl, h]
    · exact hnd
    · exact ((storeDel_sublist st id).map Prod.fst).nodup hnd
    · rw [storeSet_keys]; exact hnd
  | setPw id body now =>
    rcases setPasswordDoc_effect st id body now with h | ⟨b, p, doc, _, _, _, _, h⟩ <;>
      rw [show applyOp maxB st (.setPw id body now) = setPasswordDoc st id body now from rfl, h]
    · exact hnd
    · rw [storeSet_keys]; exact hnd
  | setExp id body now =>
    rcases setExpiryDoc_effect st id body now with h | ⟨v, h⟩ <;>
      rw [show applyOp maxB st (.setExp id body now) = setExpiryDoc st id body now from rfl, h]
    · exact hnd
    · rw [storeSet_keys]; exact hnd
  | sweep now =>
    exact ((cleanup_sublist st now).map Prod.fst).nodup hnd

theorem reachable_nodup {maxB : Nat} {st : Store} (h : Reachable maxB st) :
    (st.map Prod.fst).Nodup := by
  induction h with
  | init => simp
  | step st op _ ih => exact applyOp_nodup maxB st op ih

theorem getDoc_locked_none {st : Store} {id : Str} {doc : DocRecord} {h : Str} {r : PwSources}
    {now : Int} (hget : storeGet st id = some doc) (hexp : isExpired doc.expiresAt now = false)
    (hph : doc.passwordHash = some h) (hne : h ≠ []) (hgp : getPassword r = none) :
    getDoc st id r now = (.passwordRequired, st) := by
  unfold getDoc
  rw [hget]
  simp only [hexp, Bool.false_eq_true, if_false, hph, hgp]
  rw [if_pos hne]

theorem getDoc_locked_bad {st : Store} {id : Str} {doc : DocRecord} {h pw : Str} {r : PwSources}
    {now : Int} (hget : storeGet st id = some doc) (hexp : isExpired doc.expiresAt now = false)
    (hph : doc.passwordHash = some h) (hne : h ≠ []) (hgp : getPassword r = some pw)
    (hv : hasherVerify h pw = false) :
    getDoc st id r now = (.invalidPassword, st) := by
  unfold getDoc
  rw [hget]
  simp only [hexp, Bool.false_eq_true, if_false, hph, hgp, hv]
  rw [if_pos hne]

theorem getDoc_locked_ok {st : Store} {id : Str} {doc : DocRecord} {h pw : Str} {r : PwSources}
    {now : Int} (hget : storeGet st id = some doc) (hexp : isExpired doc.expiresAt now = false)
    (hph : doc.passwordHash = some h) (hne : h ≠ []) (hgp : getPassword r = some pw)
    (hv : hasherVerify h pw = true) :
    getDoc st id r now =
      (.okRead (jsonParse doc.content) doc.expiresAt (docLocked doc),
        storeSet st id (fun d =>
          { d with viewCount := d.viewCount + 1, lastAccessedAt := some (toIso now) })) := by
  unfold getDoc
  rw [hget]
  simp only [hexp, Bool.false_eq_true, if_false, hph, hgp, hv, if_true]
  rw [if_pos hne]
theorem putDoc_locked_none {maxB : Nat} {st : Store} {id : Str} {hdr qry : Option Str}
    {b : PutBody} {c : Json} {doc : DocRecord} {h : Str} {now : Int}
    (hbc : b.content = some c) (htr : jsTruthy c = true)
    (hget : storeGet st id = some doc) (hexp : isExpired doc.expiresAt now = false)
    (hph : doc.passwordHash = some h) (hne : h ≠ [])
    (hgp : getPassword ⟨hdr, qry, b.password⟩ = none) :
    putDoc maxB st id hdr qry (some b) now = (.passwordRequired, st) := by
  unfold putDoc
  simp only [hbc, htr, Bool.true_eq_false, if_false, hget, hexp, Bool.false_eq_true, hph, hgp]
  rw [if_pos hne]

theorem putDoc_locked_bad {maxB : Nat} {st : Store} {id : Str} {hdr qry : Option Str}
    {b : PutBody} {c : Json} {doc : DocRecord} {h pw : Str} {now : Int}
    (hbc : b.content = some c) (htr : jsTruthy c = true)
    (hget : storeGet st id = some doc) (hexp : isExpired doc.expiresAt now = false)
    (hph : doc.passwordHash = some h) (hne : h ≠ [])
    (hgp : getPassword ⟨hdr, qry, b.password⟩ = some pw) (hv : hasherVerify h pw = false) :
    putDoc maxB st id hdr qry (some b) now = (.invalidPassword, st) := by
  unfold putDoc
  simp only [hbc, htr, Bool.true_eq_false, if_false, hget, hexp, Bool.false_eq_true, hph, hgp, hv]
  rw [if_pos hne]

theorem putDoc_locked_ok {maxB : Nat} {st : Store} {id : Str} {hdr qry : Option Str}
    {b : PutBody} {c : Json} {doc : DocRecord} {h pw : Str} {now : Int}
    (hbc : b.content = some c) (htr : jsTruthy c = true)
    (hget : storeGet st id = some doc) (hexp : isExpired doc.expiresAt now = false)
    (hph : doc.passwordHash = some h) (hne : h ≠ [])
    (hgp : getPassword ⟨hdr, qry, b.password⟩ = some pw) (hv : hasherVerify h pw = true) :
    putDoc maxB st id hdr qry (some b) now =
      match ensureDocSize maxB (some c) with
      | none => (.docTooLarge, st)
      | some json =>
        (.okWrite (toIso now),
          storeSet st id (fun d => { d with content := json, updatedAt := toIso now })) := by
  unfold putDoc
  simp only [hbc, htr, Bool.true_eq_false, if_false, hget, hexp, Bool.false_eq_true, hph, hgp,
    hv, if_true]
  rw [if_pos hne]

theorem setPasswordDoc_conflict {st : Store} {id : Str} {p : Str} {doc : DocRecord} {now : Int}
    (hp : ¬(p = [] ∨ p.length < 4)) (hget : storeGet st id = some doc)
    (hlock : docLocked doc = true) :
    setPasswordDoc st id (some ⟨some p⟩) now = (.conflictPasswordSet, st) := by
  unfold setPasswordDoc
  simp only [hget, hlock, if_true]
  rw [if_neg hp]

theorem setExpiryDoc_unguarded {st : Store} {id : Str} {s : Str} {doc : DocRecord} {now : Int}
    (hget : storeGet st id = some doc) (hparse : jsDateParse s ≠ none) :
    setExpiryDoc st id (some ⟨some (some s)⟩) now =
      (.okExpiry (some s), storeSet st id (fun d => { d with expiresAt := some s })) := by
  unfold setExpiryDoc
  simp only [hget]
  rw [if_neg hparse]
theorem getDoc_unlocked {st : Store} {id : Str} {doc : DocRecord} {r : PwSources} {now : Int}
    (hget : storeGet st id = some doc) (hexp : isExpired doc.expiresAt now = false)
    (hph : doc.passwordHash = none) :
    getDoc st id r now =
      (.okRead (jsonParse doc.content) doc.expiresAt (docLocked doc),
        storeSet st id (fun d =>
          { d with viewCount := d.viewCount + 1, lastAccessedAt := some (toIso now) })) := by
  unfold getDoc
  rw [hget]
  simp only [hexp, Bool.false_eq_true, if_false, hph]

theorem putDoc_unlocked {maxB : Nat} {st : Store} {id : Str} {hdr qry : Option Str}
    {b : PutBody} {c : Json} {doc : DocRecord} {now : Int}
    (hbc : b.content = some c) (htr : jsTruthy c = true)
    (hget : storeGet st id = some doc) (hexp : isExpired doc.expiresAt now = false)
    (hph : doc.passwordHash = none) :
    putDoc maxB st id hdr qry (some b) now =
      match ensureDocSize maxB (some c) with
      | none => (.docTooLarge, st)
      | some json =>
        (.okWrite (toIso now),
          storeSet st id (fun d => { d with content := json, updatedAt := toIso now })) := by
  unfold putDoc
  simp only [hbc, htr, Bool.true_eq_false, if_false, hget, hexp, Bool.false_eq_true, hph]

theorem ensureDocSize_le {maxB : Nat} {c : Option Json} {json : Str}
    (h : ensureDocSize maxB c = some json) : (utf8Encode json).length ≤ maxB := by
  unfold ensureDocSize at h
  dsimp only [] at h
  split at h
  · exact absurd h (by simp)
  · injection h with h2
    subst h2
    omega

theorem ensureDocSize_some_eq {maxB : Nat} {c : Json} {json : Str}
    (h : ensureDocSize maxB (some c) = some json) : json = strfyV c := by
  unfold ensureDocSize at h
  dsimp only [] at h
  split at h
  · exact absurd h (by simp)
  · injection h with h2
    exact h2.symm

theorem mem_storeSet {st : Store} {id : Str} {f : DocRecord → DocRecord} {e : Str × DocRecord}
    (h : e ∈ storeSet st id f) : e ∈ st ∨ ∃ k d, (k, d) ∈ st ∧ e = (k, f d) := by
  induction st with
  | nil => simp [storeSet] at h
  | cons hd t ih =>
    obtain ⟨k, d⟩ := hd
    by_cases hk : k = id
    · rw [storeSet, if_pos hk] at h
      rcases List.mem_cons.mp h with h | h
      · exact Or.inr ⟨k, d, List.mem_cons_self _ _, h⟩
      · rcases ih h with h2 | ⟨k2, d2, hm, he⟩
        · exact Or.inl (List.mem_cons_of_mem _ h2)
        · exact Or.inr ⟨k2, d2, List.mem_cons_of_mem _ hm, he⟩
    · rw [storeSet, if_neg hk] at h
      rcases List.mem_cons.mp h with h | h
      · exact Or.inl (h ▸ List.mem_cons_self _ _)
      · rcases ih h with h2 | ⟨k2, d2, hm, he⟩
        · exact Or.inl (List.mem_cons_of_mem _ h2)
        · exact Or.inr ⟨k2, d2, List.mem_cons_of_mem _ hm, he⟩

theorem storeGet_cleanup_nodup {st : Store} {now : Int} {id : Str}
    (hnd : (st.map Prod.fst).Nodup) :
    storeGet (cleanupExpired st now) id = none ∨
    storeGet (cleanupExpired st now) id = storeGet st id := by
  rcases storeGet_cleanup st now id with h | h | ⟨d, h, hm⟩
  · exact Or.inl h
  · exact Or.inr h
  · exact Or.inr (by rw [h, mem_storeGet_of_nodup hnd hm])

theorem reachable_content_le {maxB : Nat} {st : Store} (hreach : Reachable maxB st) :
    ∀ e ∈ st, (utf8Encode e.2.content).length ≤ maxB := by
  induction hreach with
  | init => intro e he; simp at he
  | step st op _ ih =>
    intro e he
    cases op with
    | create id now =>
      rcases createDoc_effect maxB st id now with h | ⟨json, hsz, hg, h⟩ <;>
        rw [show (applyOp maxB st (.create id now)).2 = (createDoc maxB st id now).2 from rfl,
          h] at he
      · exact ih e he
      · rcases List.mem_append.mp he with he | he
        · exact ih e he
        · rw [List.mem_singleton] at he
          subst he
          exact ensureDocSize_le hsz
    | read id r now =>
      rcases getDoc_effect st id r now with h | h | h <;>
        rw [show (applyOp maxB st (.read id r now)).2 = (getDoc st id r now).2 from rfl, h] at he
      · exact ih e he
      · exact ih e ((storeDel_sublist st id).mem he)
      · rcases mem_storeSet he with he | ⟨k, d, hm, hee⟩
        · exact ih e he
        · subst hee
          exact ih (k, d) hm
    | write id hdr qry body now =>
      rcases putDoc_effect maxB st id hdr qry body now with h | h | ⟨b, c, json, _, _, hsz, h⟩ <;>
        rw [show (applyOp maxB st (.write id hdr qry body now)).2 =
          (putDoc maxB st id hdr qry body now).2 from rfl, h] at he
      · exact ih e he
      · exact ih e ((storeDel_sublist st id).mem he)
      · rcases mem_storeSet he with he | ⟨k, d, hm, hee⟩
        · exact ih e he
        · subst hee
          exact ensureDocSize_le hsz
    | setPw id body now =>
      rcases setPasswordDoc_effect st id body now with h | ⟨b, p, doc, _, _, _, _, h⟩ <;>
        rw [show (applyOp maxB st (.setPw id body now)).2 =
          (setPasswordDoc st id body now).2 from rfl, h] at he
      · exact ih e he
      · rcases mem_storeSet he with he | ⟨k, d, hm, hee⟩
        · exact ih e he
        · subst hee
          exact ih (k, d) hm
    | setExp id body now =>
      rcases setExpiryDoc_effect st id body now with h | ⟨v, h⟩ <;>
        rw [show (applyOp maxB st (.setExp id body now)).2 =
          (setExpiryDoc st id body now).2 from rfl, h] at he
      · exact ih e he
      · rcases mem_storeSet he with he | ⟨k, d, hm, hee⟩
        · exact ih e he
        · subst hee
          exact ih (k, d) hm
    | sweep now =>
      exact ih e ((cleanup_sublist st now).mem he)
/-- C1: amended guard behaviour.  For a locked, unexpired document the read and
write operations pass the Document Access Guard exactly as specified (no
credential → password-required, non-verifying credential → invalid-password,
verifying credential → the operation body executes), and a password-set on a
locked document is rejected with the conflict signal; but the expiry-set
operation is NOT guarded: with no credential supplied it still executes and
mutates the record. -/
theorem c1_document_access_guard {st : Store} {id : Str} {doc : DocRecord} {h : Str} {now : Int}
    (hget : storeGet st id = some doc) (hexp : isExpired doc.expiresAt now = false)
    (hph : doc.passwordHash = some h) (hne : h ≠ []) :
    (∀ r, getPassword r = none → getDoc st id r now = (.passwordRequired, st)) ∧
    (∀ r pw, getPassword r = some pw → hasherVerify h pw = false →
        getDoc st id r now = (.invalidPassword, st)) ∧
    (∀ r pw, getPassword r = some pw → hasherVerify h pw = true →
        (getDoc st id r now).1 = .okRead (jsonParse doc.content) doc.expiresAt (docLocked doc)) ∧
    (∀ maxB hdr qry b c, PutBody.content b = some c → jsTruthy c = true →
        getPassword ⟨hdr, qry, b.password⟩ = none →
        putDoc maxB st id hdr qry (some b) now = (.passwordRequired, st)) ∧
    (∀ maxB hdr qry b c pw, PutBody.content b = some c → jsTruthy c = true →
        getPassword ⟨hdr, qry, b.password⟩ = some pw → hasherVerify h pw = false →
        putDoc maxB st id hdr qry (some b) now = (.invalidPassword, st)) ∧
    (∀ maxB hdr qry b c pw json, PutBody.content b = some c → jsTruthy c = true →
        getPassword ⟨hdr, qry, b.password⟩ = some pw → hasherVerify h pw = true →
        ensureDocSize maxB (some c) = some json →
        putDoc maxB st id hdr qry (some b) now =
          (.okWrite (toIso now),
            storeSet st id (fun d => { d with content := json, updatedAt := toIso now }))) ∧
    (∀ p now2, ¬(p = [] ∨ List.length p < 4) →
        setPasswordDoc st id (some ⟨some p⟩) now2 = (.conflictPasswordSet, st)) ∧
    (∀ s now2, jsDateParse s ≠ none →
        setExpiryDoc st id (some ⟨some (some s)⟩) now2 =
          (.okExpiry (some s), storeSet st id (fun d => { d with expiresAt := some s }))) := by
  have hlock : docLocked doc = true := by simp [docLocked, hph, hne]
  refine ⟨fun r hgp => getDoc_locked_none hget hexp hph hne hgp,
    fun r pw hgp hv => getDoc_locked_bad hget hexp hph hne hgp hv,
    fun r pw hgp hv => by rw [getDoc_locked_ok hget hexp hph hne hgp hv],
    fun maxB hdr qry b c hbc htr hgp => putDoc_locked_none hbc htr hget hexp hph hne hgp,
    fun maxB hdr qry b c pw hbc htr hgp hv => putDoc_locked_bad hbc htr hget hexp hph hne hgp hv,
    fun maxB hdr qry b c pw json hbc htr hgp hv hsz => by
      rw [putDoc_locked_ok hbc htr hget hexp hph hne hgp hv, hsz],
    fun p now2 hp => setPasswordDoc_conflict hp hget hlock,
    fun s now2 hparse => setExpiryDoc_unguarded hget hparse⟩

/-- C2: amended lazy-expiry behaviour.  Read and write detect an expired
document first, respond with the distinguishable expired reason and delete the
record, so a subsequent read observes not-found; but password-set and
expiry-set perform no expiry check at all: they never produce the expired
response. -/
theorem c2_lazy_expiry {st : Store} {id : Str} {doc : DocRecord} {now : Int}
    (hget : storeGet st id = some doc) (hexp : isExpired doc.expiresAt now = true) :
    (∀ r, getDoc st id r now = (.expired, storeDel st id)) ∧
    (∀ maxB hdr qry b c, PutBody.content b = some c → jsTruthy c = true →
        putDoc maxB st id hdr qry (some b) now = (.expired, storeDel st id)) ∧
    (∀ r now2, getDoc (storeDel st id) id r now2 = (.notFound, storeDel st id)) ∧
    (∀ body now2, (setPasswordDoc st id body now2).1 ≠ .expired) ∧
    (∀ body now2, (setExpiryDoc st id body now2).1 ≠ .expired) := by
  refine ⟨?_, ?_, ?_, ?_, ?_⟩
  · intro r
    unfold getDoc
    rw [hget]
    simp only [hexp, if_true]
  · intro maxB hdr qry b c hbc htr
    unfold putDoc
    simp only [hbc, htr, Bool.true_eq_false, if_false, hget, hexp, if_true]
  · intro r now2
    unfold getDoc
    rw [storeGet_del, if_pos rfl]
  · intro body now2
    unfold setPasswordDoc
    repeat' split
    all_goals exact fun hcon => Resp.noConfusion hcon
  · intro body now2
    unfold setExpiryDoc
    repeat' split
    all_goals exact fun hcon => Resp.noConfusion hcon

/-- C3: once a password hash is set (the hash slot holds a truthy string), a
further set-password on that document fails with the conflict signal, every
set-password call leaves the store unchanged, and no operation of the system
changes the stored hash or the password-set timestamp while the record
survives. -/
theorem c3_password_hash_immutable {maxB : Nat} {st : Store} {id : Str} {doc : DocRecord}
    {h : Str} (hreach : Reachable maxB st) (hget : storeGet st id = some doc)
    (hph : doc.passwordHash = some h) (hne : h ≠ []) :
    (∀ p now, ¬(p = [] ∨ List.length p < 4) →
        setPasswordDoc st id (some ⟨some p⟩) now = (.conflictPasswordSet, st)) ∧
    (∀ body now, (setPasswordDoc st id body now).2 = st) ∧
    (∀ op doc2, storeGet (applyOp maxB st op).2 id = some doc2 →
        doc2.passwordHash = some h ∧ doc2.passwordSetAt = doc.passwordSetAt) := by
  have hlock : docLocked doc = true := by simp [docLocked, hph, hne]
  refine ⟨fun p now hp => setPasswordDoc_conflict hp hget hlock, ?_, ?_⟩
  · intro body now
    rcases setPasswordDoc_effect st id body now with h2 | ⟨b, p, doc3, _, _, hget3, hnl, _⟩
    · exact h2
    · rw [hget] at hget3
      injection hget3 with he
      exact absurd (he ▸ hlock) hnl
  · intro op doc2 hget2
    cases op with
    | create id2 now =>
      rcases createDoc_effect maxB st id2 now with h2 | ⟨json, hsz, hg, h2⟩ <;>
        rw [show (applyOp maxB st (.create id2 now)).2 = (createDoc maxB st id2 now).2 from rfl,
          h2] at hget2
      · rw [hget] at hget2
        injection hget2 with he
        subst he
        exact ⟨hph, rfl⟩
      · rw [storeGet_ins_of_some hget id2 _] at hget2
        injection hget2 with he
        subst he
        exact ⟨hph, rfl⟩
    | read id2 r now =>
      rcases getDoc_effect st id2 r now with h2 | h2 | h2 <;>
        rw [show (applyOp maxB st (.read id2 r now)).2 = (getDoc st id2 r now).2 from rfl,
          h2] at hget2
      · rw [hget] at hget2
        injection hget2 with he
        subst he
        exact ⟨hph, rfl⟩
      · rw [storeGet_del] at hget2
        by_cases hid : id = id2
        · rw [if_pos hid] at hget2
          exact absurd hget2 (by simp)
        · rw [if_neg hid, hget] at hget2
          injection hget2 with he
          subst he
          exact ⟨hph, rfl⟩
      · rw [storeGet_set] at hget2
        by_cases hid : id = id2
        · rw [if_pos hid, hget] at hget2
          injection hget2 with he
          subst he
          exact ⟨hph, rfl⟩
        · rw [if_neg hid, hget] at hget2
          injection hget2 with he
          subst he
          exact ⟨hph, rfl⟩
    | write id2 hdr qry body now =>
      rcases putDoc_effect maxB st id2 hdr qry body now with h2 | h2 | ⟨b, c, json, _, _, _, h2⟩ <;>
        rw [show (applyOp maxB st (.write id2 hdr qry body now)).2 =
          (putDoc maxB st id2 hdr qry body now).2 from rfl, h2] at hget2
      · rw [hget] at hget2
        injection hget2 with he
        subst he
        exact ⟨hph, rfl⟩
      · rw [storeGet_del] at hget2
        by_cases hid : id = id2
        · rw [if_pos hid] at hget2
          exact absurd hget2 (by simp)
        · rw [if_neg hid, hget] at hget2
          injection hget2 with he
          subst he
          exact ⟨hph, rfl⟩
      · rw [storeGet_set] at hget2
        by_cases hid : id = id2
        · rw [if_pos hid, hget] at hget2
          injection hget2 with he
          subst he
          exact ⟨hph, rfl⟩
        · rw [if_neg hid, hget] at hget2
          injection hget2 with he
          subst he
          exact ⟨hph, rfl⟩
    | setPw id2 body now =>
      rcases setPasswordDoc_effect st id2 body now with h2 | ⟨b, p, doc3, _, _, hget3, hnl, h2⟩ <;>
        rw [show (applyOp maxB st (.setPw id2 body now)).2 =
          (setPasswordDoc st id2 body now).2 from rfl, h2] at hget2
      · rw [hget] at hget2
        injection hget2 with he
        subst he
        exact ⟨hph, rfl⟩
      · by_cases hid : id = id2
        · subst hid
          rw [hget] at hget3
          injection hget3 with he
          exact absurd (he ▸ hlock) hnl
        · rw [storeGet_set, if_neg hid, hget] at hget2
          injection hget2 with he
          subst he
          exact ⟨hph, rfl⟩
    | setExp id2 body now =>
      rcases setExpiryDoc_effect st id2 body now with h2 | ⟨v, h2⟩ <;>
        rw [show (applyOp maxB st (.setExp id2 body now)).2 =
          (setExpiryDoc st id2 body now).2 from rfl, h2] at hget2
      · rw [hget] at hget2
        injection hget2 with he
        subst he
        exact ⟨hph, rfl⟩
      · rw [storeGet_set] at hget2
        by_cases hid : id = id2
        · rw [if_pos hid, hget] at hget2
          injection hget2 with he
          subst he
          exact ⟨hph, rfl⟩
        · rw [if_neg hid, hget] at hget2
          injection hget2 with he
          subst he
          exact ⟨hph, rfl⟩
    | sweep now =>
      rw [show (applyOp maxB st (.sweep now)).2 = cleanupExpired st now from rfl] at hget2
      rcases storeGet_cleanup_nodup (reachable_nodup hreach) with h2 | h2
      · rw [h2] at hget2
        exact absurd hget2 (by simp)
      · rw [h2, hget] at hget2
        injection hget2 with he
        subst he
        exact ⟨hph, rfl⟩

/-- C6 (spec-modelled: the argon2 hasher is an external dependency; the model
renders a digest as the tagged plaintext and `MalformedDigest` as any string
no plaintext hashes to): verification of a malformed or corrupt stored digest
fails closed — it returns false for every plaintext and the guarded read and
write operations report invalid-password with the store unchanged, never a
crash. -/
theorem c6_verify_fails_closed {d : Str} (hmal : MalformedDigest d) :
    (∀ pt, hasherVerify d pt = false) ∧
    (∀ st id doc r now pw, storeGet st id = some doc → isExpired doc.expiresAt now = false →
        doc.passwordHash = some d → d ≠ [] → getPassword r = some pw →
        getDoc st id r now = (.invalidPassword, st)) ∧
    (∀ maxB st id hdr qry b c doc now pw, PutBody.content b = some c → jsTruthy c = true →
        storeGet st id = some doc → isExpired doc.expiresAt now = false →
        doc.passwordHash = some d → d ≠ [] →
        getPassword ⟨hdr, qry, b.password⟩ = some pw →
        putDoc maxB st id hdr qry (some b) now = (.invalidPassword, st)) := by
  have hv : ∀ pt, hasherVerify d pt = false := by
    intro pt
    simp [hasherVerify, hmal pt]
  refine ⟨hv, ?_, ?_⟩
  · intro st id doc r now pw hget hexp hph hne hgp
    exact getDoc_locked_bad hget hexp hph hne hgp (hv pw)
  · intro maxB st id hdr qry b c doc now pw hbc htr hget hexp hph hne hgp
    exact putDoc_locked_bad hbc htr hget hexp hph hne hgp (hv pw)

/-- C9: on every store reachable through the document operations every stored
content blob's UTF-8 byte length is within the configured ceiling, and a
create or update whose serialised content exceeds the ceiling is rejected
with the distinct too-large signal, leaving the store unchanged. -/
theorem c9_size_ceiling {maxB : Nat} {st : Store} (hreach : Reachable maxB st) :
    (∀ id doc, storeGet st id = some doc → (utf8Encode doc.content).length ≤ maxB) ∧
    (∀ id now, ensureDocSize maxB (some initialDocJson) = none →
        createDoc maxB st id now = (.docTooLarge, st)) ∧
    (∀ id hdr qry b c doc now, PutBody.content b = some c → jsTruthy c = true →
        storeGet st id = some doc → isExpired doc.expiresAt now = false →
        doc.passwordHash = none → ensureDocSize maxB (some c) = none →
        putDoc maxB st id hdr qry (some b) now = (.docTooLarge, st)) := by
  refine ⟨?_, ?_, ?_⟩
  · intro id doc hget
    exact reachable_content_le hreach (id, doc) (storeGet_mem hget)
  · intro id now hsz
    unfold createDoc
    rw [hsz]
  · intro id hdr qry b c doc now hbc htr hget hexp hph hsz
    rw [putDoc_unlocked hbc htr hget hexp hph, hsz]

/-- C10: content write/read round-trip.  A successful update (content present
and truthy, document present and unexpired, size within the ceiling, guard
passed — trivially when unlocked, by verifying credentials when locked)
stores the serialised content, and a subsequent read with a passing guard and
no intervening update returns a parsed content equal to the written value. -/
theorem c10_content_roundtrip {maxB : Nat} {st : Store} {id : Str} {doc : DocRecord}
    {hdr qry : Option Str} {b : PutBody} {c : Json} {json : Str} {now now2 : Int} {r2 : PwSources}
    (hbc : PutBody.content b = some c) (htr : jsTruthy c = true)
    (hget : storeGet st id = some doc) (hexp : isExpired doc.expiresAt now = false)
    (hexp2 : isExpired doc.expiresAt now2 = false)
    (hsz : ensureDocSize maxB (some c) = some json)
    (hg : doc.passwordHash = none ∨
          ∃ hh pw pw2, doc.passwordHash = some hh ∧ hh ≠ [] ∧
            getPassword ⟨hdr, qry, b.password⟩ = some pw ∧ hasherVerify hh pw = true ∧
            getPassword r2 = some pw2 ∧ hasherVerify hh pw2 = true) :
    (putDoc maxB st id hdr qry (some b) now).1 = .okWrite (toIso now) ∧
    (getDoc (putDoc maxB st id hdr qry (some b) now).2 id r2 now2).1 =
      .okRead (some c) doc.expiresAt (docLocked doc) := by
  have hjson : json = strfyV c := ensureDocSize_some_eq hsz
  have hput : putDoc maxB st id hdr qry (some b) now =
      (.okWrite (toIso now),
        storeSet st id (fun d => { d with content := json, updatedAt := toIso now })) := by
    rcases hg with hph | ⟨hh, pw, pw2, hph, hne, hgp, hv, _, _⟩
    · rw [putDoc_unlocked hbc htr hget hexp hph, hsz]
    · rw [putDoc_locked_ok hbc htr hget hexp hph hne hgp hv, hsz]
  have hget2 : storeGet (putDoc maxB st id hdr qry (some b) now).2 id =
      some { doc with content := json, updatedAt := toIso now } := by
    rw [hput]
    dsimp only []
    rw [storeGet_set, if_pos rfl, hget]
    rfl
  constructor
  · rw [hput]
  · rcases hg with hph | ⟨hh, pw, pw2, hph, hne, hgp, hv, hgp2, hv2⟩
    · rw [getDoc_unlocked hget2 (by exact hexp2) (by exact hph)]
      dsimp only []
      rw [hjson, jsonParse_strfyV]
      rfl
    · rw [getDoc_locked_ok hget2 (by exact hexp2) (by exact hph) hne hgp2 hv2]
      dsimp only []
      rw [hjson, jsonParse_strfyV]
      rfl
/-- C1 counterexample: a locked document (truthy password hash) with no
credential supplied anywhere still lets the expiry-set operation execute and
mutate the record, instead of rejecting it as password-required. -/
theorem c1_counterexample :
    getPassword ⟨none, none, none⟩ = none ∧
    docLocked { content := [], createdAt := [], updatedAt := [], expiresAt := none, passwordHash := some "$argon2$weak".toList, passwordSetAt := none, viewCount := 0, lastAccessedAt := none } = true ∧
    setExpiryDoc [("d".toList, { content := [], createdAt := [], updatedAt := [], expiresAt := none, passwordHash := some "$argon2$weak".toList, passwordSetAt := none, viewCount := 0, lastAccessedAt := none })] "d".toList (some ⟨some (some "2030-01-01".toList)⟩) 5 =
      (.okExpiry (some "2030-01-01".toList), [("d".toList, { content := [], createdAt := [], updatedAt := [], expiresAt := some "2030-01-01".toList, passwordHash := some "$argon2$weak".toList, passwordSetAt := none, viewCount := 0, lastAccessedAt := none })]) :=
  ⟨rfl, rfl, rfl⟩

/-- C2 counterexample: on a document whose expiry instant has already passed,
the password-set operation does not respond expired and does not delete the
record — it succeeds and stores the digest. -/
theorem c2_counterexample :
    isExpired (some "2000-01-01".toList) 946684800000 = true ∧
    setPasswordDoc [("d".toList, { content := [], createdAt := [], updatedAt := [], expiresAt := some "2000-01-01".toList, passwordHash := none, passwordSetAt := none, viewCount := 0, lastAccessedAt := none })] "d".toList (some ⟨some "weak".toList⟩) 946684800000 =
      (.okPasswordSet "2000-01-01T00:00:00.000Z".toList, [("d".toList, { content := [], createdAt := [], updatedAt := [], expiresAt := some "2000-01-01".toList, passwordHash := some "$argon2$weak".toList, passwordSetAt := some "2000-01-01T00:00:00.000Z".toList, viewCount := 0, lastAccessedAt := none })]) :=
  ⟨rfl, rfl⟩

/-- C7: the eager sweep compares the stored expiry string with the current ISO
timestamp as text, while the expiry-set operation stores any parseable
timestamp string verbatim.  An RFC 1123 timestamp from the year 2000 is
accepted, the lazy per-access check classifies the document as expired at the
2025 instant 1760000000000, yet the sweep's text comparison does not select
the row, so the sweep deletes nothing: the sweep does not delete every
document the lazy check classifies as expired. -/
theorem c7_sweep_misses_expired_document :
    setExpiryDoc [("d".toList, { content := [], createdAt := [], updatedAt := [], expiresAt := none, passwordHash := none, passwordSetAt := none, viewCount := 0, lastAccessedAt := none })] "d".toList (some ⟨some (some "Thu, 01 Jan 2000 00:00:00 GMT".toList)⟩) 0 =
      (.okExpiry (some "Thu, 01 Jan 2000 00:00:00 GMT".toList), [("d".toList, { content := [], createdAt := [], updatedAt := [], expiresAt := some "Thu, 01 Jan 2000 00:00:00 GMT".toList, passwordHash := none, passwordSetAt := none, viewCount := 0, lastAccessedAt := none })]) ∧
    isExpired (some "Thu, 01 Jan 2000 00:00:00 GMT".toList) 1760000000000 = true ∧
    sweepSelects { content := [], createdAt := [], updatedAt := [], expiresAt := some "Thu, 01 Jan 2000 00:00:00 GMT".toList, passwordHash := none, passwordSetAt := none, viewCount := 0, lastAccessedAt := none } 1760000000000 = false ∧
    cleanupExpired [("d".toList, { content := [], createdAt := [], updatedAt := [], expiresAt := some "Thu, 01 Jan 2000 00:00:00 GMT".toList, passwordHash := none, passwordSetAt := none, viewCount := 0, lastAccessedAt := none })] 1760000000000 = [("d".toList, { content := [], createdAt := [], updatedAt := [], expiresAt := some "Thu, 01 Jan 2000 00:00:00 GMT".toList, passwordHash := none, passwordSetAt := none, viewCount := 0, lastAccessedAt := none })] :=
  ⟨rfl, rfl, rfl, rfl⟩

theorem uploadFavs_all_ok {l : List Fav} (server : List Fav)
    (hok : ∀ f ∈ l, strTrim f.url ≠ [] ∧ strTrim f.title ≠ []) :
    uploadFavs server l =
      (server ++ l.map (fun f => { url := strTrim f.url, title := strTrim f.title }), true) := by
  induction l generalizing server with
  | nil => simp [uploadFavs]
  | cons f t ih =>
    have hf := hok f (List.mem_cons_self _ _)
    have hfc : favCreate server f =
        some (server ++ [{ url := strTrim f.url, title := strTrim f.title }]) := by
      unfold favCreate
      dsimp only []
      rw [if_neg (not_or.mpr ⟨hf.1, hf.2⟩)]
    rw [uploadFavs, hfc]
    dsimp only []
    rw [ih _ (fun g hg => hok g (List.mem_cons_of_mem _ hg))]
    simp

/-- C5: amended merge behaviour.  Merging a non-empty local favorites list
(whose entries all have non-blank URL and title) into an empty server set
uploads every local entry — one server favorite per local favorite, even when
several locals share one normalized URL, because the server-side URL set is
computed once before any upload and the server does not deduplicate — and
clears the local store. -/
theorem c5_merge_uploads_all {locals : List Fav} (hne : locals ≠ [])
    (hok : ∀ f ∈ locals, strTrim f.url ≠ [] ∧ strTrim f.title ≠ []) :
    mergeLocalFavoritesToServer [] locals =
      (locals.map (fun f => { url := strTrim f.url, title := strTrim f.title }), [], true) := by
  unfold mergeLocalFavoritesToServer
  rw [if_neg hne]
  dsimp only []
  have hfilter : locals.filter
      (fun f => ¬ (([] : List Fav).map (fun f => normalizeUrl f.url)).contains
        (normalizeUrl f.url)) = locals :=
    List.filter_eq_self.mpr (fun a ha => rfl)
  rw [hfilter, if_neg hne, uploadFavs_all_ok [] hok]
  dsimp only []
  simp

/-- C5 counterexample: the spec's own example — two local favorites whose URLs
normalize to the same URL, merged into an empty server set — creates two
server favorites for that normalized URL, not exactly one. -/
theorem c5_counterexample :
    normalizeUrl "http://x/a".toList = normalizeUrl "http://x/a/".toList ∧
    mergeLocalFavoritesToServer []
        [{ url := "http://x/a".toList, title := "t1".toList }, { url := "http://x/a/".toList, title := "t2".toList }] =
      ([{ url := "http://x/a".toList, title := "t1".toList }, { url := "http://x/a/".toList, title := "t2".toList }], [], true) ∧
    (([{ url := "http://x/a".toList, title := "t1".toList }, { url := "http://x/a/".toList, title := "t2".toList }] : List Fav).countP
        (fun f => normalizeUrl f.url == normalizeUrl "http://x/a".toList)) = 2 :=
  ⟨rfl, rfl, rfl⟩
theorem c1_document_access_guard_witness :
    getDoc [("d".toList, { content := [], createdAt := [], updatedAt := [], expiresAt := none, passwordHash := some "$argon2$weak".toList, passwordSetAt := none, viewCount := 0, lastAccessedAt := none })] "d".toList ⟨none, none, none⟩ 5 = (.passwordRequired, [("d".toList, { content := [], createdAt := [], updatedAt := [], expiresAt := none, passwordHash := some "$argon2$weak".toList, passwordSetAt := none, viewCount := 0, lastAccessedAt := none })]) ∧
    getDoc [("d".toList, { content := [], createdAt := [], updatedAt := [], expiresAt := none, passwordHash := some "$argon2$weak".toList, passwordSetAt := none, viewCount := 0, lastAccessedAt := none })] "d".toList ⟨some "nope".toList, none, none⟩ 5 = (.invalidPassword, [("d".toList, { content := [], createdAt := [], updatedAt := [], expiresAt := none, passwordHash := some "$argon2$weak".toList, passwordSetAt := none, viewCount := 0, lastAccessedAt := none })]) ∧
    (getDoc [("d".toList, { content := [], createdAt := [], updatedAt := [], expiresAt := none, passwordHash := some "$argon2$weak".toList, passwordSetAt := none, viewCount := 0, lastAccessedAt := none })] "d".toList ⟨some "weak".toList, none, none⟩ 5).1 = .okRead none none true ∧
    setPasswordDoc [("d".toList, { content := [], createdAt := [], updatedAt := [], expiresAt := none, passwordHash := some "$argon2$weak".toList, passwordSetAt := none, viewCount := 0, lastAccessedAt := none })] "d".toList (some ⟨some "newpassword".toList⟩) 6 = (.conflictPasswordSet, [("d".toList, { content := [], createdAt := [], updatedAt := [], expiresAt := none, passwordHash := some "$argon2$weak".toList, passwordSetAt := none, viewCount := 0, lastAccessedAt := none })]) ∧
    (setExpiryDoc [("d".toList, { content := [], createdAt := [], updatedAt := [], expiresAt := none, passwordHash := some "$argon2$weak".toList, passwordSetAt := none, viewCount := 0, lastAccessedAt := none })] "d".toList (some ⟨some (some "2030-01-01".toList)⟩) 6).1 = .okExpiry (some "2030-01-01".toList) := by
  have T := @c1_document_access_guard [("d".toList, { content := [], createdAt := [], updatedAt := [], expiresAt := none, passwordHash := some "$argon2$weak".toList, passwordSetAt := none, viewCount := 0, lastAccessedAt := none })] "d".toList { content := [], createdAt := [], updatedAt := [], expiresAt := none, passwordHash := some "$argon2$weak".toList, passwordSetAt := none, viewCount := 0, lastAccessedAt := none } ("$argon2$weak".toList) 5 rfl rfl rfl (by decide)
  refine ⟨T.1 ⟨none, none, none⟩ rfl, T.2.1 ⟨some "nope".toList, none, none⟩ "nope".toList rfl (by decide), ?_,
    T.2.2.2.2.2.2.1 "newpassword".toList 6 (by decide), ?_⟩
  · exact (T.2.2.1 ⟨some "weak".toList, none, none⟩ "weak".toList rfl rfl).trans rfl
  · rw [T.2.2.2.2.2.2.2 "2030-01-01".toList 6 (by decide)]

theorem c2_lazy_expiry_witness :
    getDoc [("d".toList, { content := [], createdAt := [], updatedAt := [], expiresAt := some "2000-01-01".toList, passwordHash := none, passwordSetAt := none, viewCount := 0, lastAccessedAt := none })] "d".toList ⟨none, none, none⟩ 946684800000 = (.expired, []) ∧
    getDoc [] "d".toList ⟨none, none, none⟩ 946684800001 = (.notFound, []) ∧
    (setPasswordDoc [("d".toList, { content := [], createdAt := [], updatedAt := [], expiresAt := some "2000-01-01".toList, passwordHash := none, passwordSetAt := none, viewCount := 0, lastAccessedAt := none })] "d".toList (some ⟨some "weak".toList⟩) 946684800000).1 ≠ .expired := by
  have T := @c2_lazy_expiry [("d".toList, { content := [], createdAt := [], updatedAt := [], expiresAt := some "2000-01-01".toList, passwordHash := none, passwordSetAt := none, viewCount := 0, lastAccessedAt := none })] "d".toList { content := [], createdAt := [], updatedAt := [], expiresAt := some "2000-01-01".toList, passwordHash := none, passwordSetAt := none, viewCount := 0, lastAccessedAt := none } 946684800000 rfl rfl
  exact ⟨T.1 _, T.2.2.1 _ 946684800001, T.2.2.2.1 _ 946684800000⟩

theorem c3_password_hash_immutable_witness :
    setPasswordDoc [("d".toList, { content := "\x7b\"type\":\"doc\",\"content\":[\x7b\"type\":\"paragraph\"\x7d]\x7d".toList, createdAt := "1970-01-01T00:00:00.000Z".toList, updatedAt := "1970-01-01T00:00:00.000Z".toList, expiresAt := none, passwordHash := some "$argon2$weak".toList, passwordSetAt := some "1970-01-01T00:00:00.000Z".toList, viewCount := 0, lastAccessedAt := none })] "d".toList (some ⟨some "newpassword".toList⟩) 7 = (.conflictPasswordSet, [("d".toList, { content := "\x7b\"type\":\"doc\",\"content\":[\x7b\"type\":\"paragraph\"\x7d]\x7d".toList, createdAt := "1970-01-01T00:00:00.000Z".toList, updatedAt := "1970-01-01T00:00:00.000Z".toList, expiresAt := none, passwordHash := some "$argon2$weak".toList, passwordSetAt := some "1970-01-01T00:00:00.000Z".toList, viewCount := 0, lastAccessedAt := none })]) ∧
    (setPasswordDoc [("d".toList, { content := "\x7b\"type\":\"doc\",\"content\":[\x7b\"type\":\"paragraph\"\x7d]\x7d".toList, createdAt := "1970-01-01T00:00:00.000Z".toList, updatedAt := "1970-01-01T00:00:00.000Z".toList, expiresAt := none, passwordHash := some "$argon2$weak".toList, passwordSetAt := some "1970-01-01T00:00:00.000Z".toList, viewCount := 0, lastAccessedAt := none })] "d".toList (some ⟨some "pwpw".toList⟩) 7).2 = [("d".toList, { content := "\x7b\"type\":\"doc\",\"content\":[\x7b\"type\":\"paragraph\"\x7d]\x7d".toList, createdAt := "1970-01-01T00:00:00.000Z".toList, updatedAt := "1970-01-01T00:00:00.000Z".toList, expiresAt := none, passwordHash := some "$argon2$weak".toList, passwordSetAt := some "1970-01-01T00:00:00.000Z".toList, viewCount := 0, lastAccessedAt := none })] := by
  have hr : Reachable 10000 [("d".toList, { content := "\x7b\"type\":\"doc\",\"content\":[\x7b\"type\":\"paragraph\"\x7d]\x7d".toList, createdAt := "1970-01-01T00:00:00.000Z".toList, updatedAt := "1970-01-01T00:00:00.000Z".toList, expiresAt := none, passwordHash := some "$argon2$weak".toList, passwordSetAt := some "1970-01-01T00:00:00.000Z".toList, viewCount := 0, lastAccessedAt := none })] :=
    Reachable.step _ (.setPw "d".toList (some ⟨some "weak".toList⟩) 0)
      (Reachable.step _ (.create "d".toList 0) .init)
  have T := @c3_password_hash_immutable 10000 [("d".toList, { content := "\x7b\"type\":\"doc\",\"content\":[\x7b\"type\":\"paragraph\"\x7d]\x7d".toList, createdAt := "1970-01-01T00:00:00.000Z".toList, updatedAt := "1970-01-01T00:00:00.000Z".toList, expiresAt := none, passwordHash := some "$argon2$weak".toList, passwordSetAt := some "1970-01-01T00:00:00.000Z".toList, viewCount := 0, lastAccessedAt := none })] "d".toList { content := "\x7b\"type\":\"doc\",\"content\":[\x7b\"type\":\"paragraph\"\x7d]\x7d".toList, createdAt := "1970-01-01T00:00:00.000Z".toList, updatedAt := "1970-01-01T00:00:00.000Z".toList, expiresAt := none, passwordHash := some "$argon2$weak".toList, passwordSetAt := some "1970-01-01T00:00:00.000Z".toList, viewCount := 0, lastAccessedAt := none } ("$argon2$weak".toList) hr rfl rfl (by decide)
  exact ⟨T.1 "newpassword".toList 7 (by decide), T.2.1 (some ⟨some "pwpw".toList⟩) 7⟩

theorem c6_verify_fails_closed_witness :
    hasherVerify "corrupt".toList "weak".toList = false ∧
    getDoc [("d".toList, { content := [], createdAt := [], updatedAt := [], expiresAt := none, passwordHash := some "corrupt".toList, passwordSetAt := none, viewCount := 0, lastAccessedAt := none })] "d".toList ⟨some "weak".toList, none, none⟩ 5 = (.invalidPassword, [("d".toList, { content := [], createdAt := [], updatedAt := [], expiresAt := none, passwordHash := some "corrupt".toList, passwordSetAt := none, viewCount := 0, lastAccessedAt := none })]) := by
  have hmal : MalformedDigest "corrupt".toList := by
    intro pt hcon
    have hlen := congrArg List.length hcon
    simp [hasherHash] at hlen
  have T := c6_verify_fails_closed hmal
  exact ⟨T.1 "weak".toList,
    T.2.1 [("d".toList, { content := [], createdAt := [], updatedAt := [], expiresAt := none, passwordHash := some "corrupt".toList, passwordSetAt := none, viewCount := 0, lastAccessedAt := none })] "d".toList { content := [], createdAt := [], updatedAt := [], expiresAt := none, passwordHash := some "corrupt".toList, passwordSetAt := none, viewCount := 0, lastAccessedAt := none } ⟨some "weak".toList, none, none⟩ 5 "weak".toList rfl rfl rfl (by decide) rfl⟩

theorem c9_size_ceiling_witness :
    (utf8Encode "\x7b\"type\":\"doc\",\"content\":[\x7b\"type\":\"paragraph\"\x7d]\x7d".toList).length ≤ 47 ∧
    putDoc 47 [("d".toList, { content := "\x7b\"type\":\"doc\",\"content\":[\x7b\"type\":\"paragraph\"\x7d]\x7d".toList, createdAt := "1970-01-01T00:00:00.000Z".toList, updatedAt := "1970-01-01T00:00:00.000Z".toList, expiresAt := none, passwordHash := none, passwordSetAt := none, viewCount := 0, lastAccessedAt := none })] "d".toList none none (some ⟨some (.str "zzzzzzzzzzzzzzzzzzzzzzzzzzzzzzzzzzzzzzzzzzzzzzzz".toList), none⟩) 5 = (.docTooLarge, [("d".toList, { content := "\x7b\"type\":\"doc\",\"content\":[\x7b\"type\":\"paragraph\"\x7d]\x7d".toList, createdAt := "1970-01-01T00:00:00.000Z".toList, updatedAt := "1970-01-01T00:00:00.000Z".toList, expiresAt := none, passwordHash := none, passwordSetAt := none, viewCount := 0, lastAccessedAt := none })]) := by
  have hr : Reachable 47 [("d".toList, { content := "\x7b\"type\":\"doc\",\"content\":[\x7b\"type\":\"paragraph\"\x7d]\x7d".toList, createdAt := "1970-01-01T00:00:00.000Z".toList, updatedAt := "1970-01-01T00:00:00.000Z".toList, expiresAt := none, passwordHash := none, passwordSetAt := none, viewCount := 0, lastAccessedAt := none })] :=
    Reachable.step _ (.create "d".toList 0) .init
  have T := @c9_size_ceiling 47 [("d".toList, { content := "\x7b\"type\":\"doc\",\"content\":[\x7b\"type\":\"paragraph\"\x7d]\x7d".toList, createdAt := "1970-01-01T00:00:00.000Z".toList, updatedAt := "1970-01-01T00:00:00.000Z".toList, expiresAt := none, passwordHash := none, passwordSetAt := none, viewCount := 0, lastAccessedAt := none })] hr
  exact ⟨T.1 "d".toList { content := "\x7b\"type\":\"doc\",\"content\":[\x7b\"type\":\"paragraph\"\x7d]\x7d".toList, createdAt := "1970-01-01T00:00:00.000Z".toList, updatedAt := "1970-01-01T00:00:00.000Z".toList, expiresAt := none, passwordHash := none, passwordSetAt := none, viewCount := 0, lastAccessedAt := none } rfl,
    T.2.2 "d".toList none none ⟨some (.str "zzzzzzzzzzzzzzzzzzzzzzzzzzzzzzzzzzzzzzzzzzzzzzzz".toList), none⟩ (.str "zzzzzzzzzzzzzzzzzzzzzzzzzzzzzzzzzzzzzzzzzzzzzzzz".toList) { content := "\x7b\"type\":\"doc\",\"content\":[\x7b\"type\":\"paragraph\"\x7d]\x7d".toList, createdAt := "1970-01-01T00:00:00.000Z".toList, updatedAt := "1970-01-01T00:00:00.000Z".toList, expiresAt := none, passwordHash := none, passwordSetAt := none, viewCount := 0, lastAccessedAt := none } 5 rfl rfl rfl rfl rfl rfl⟩

theorem c10_content_roundtrip_witness :
    (putDoc 10 [("d".toList, { content := [], createdAt := [], updatedAt := [], expiresAt := none, passwordHash := none, passwordSetAt := none, viewCount := 0, lastAccessedAt := none })] "d".toList none none (some ⟨some (.num 5), none⟩) 3).1 = .okWrite (toIso 3) ∧
    (getDoc (putDoc 10 [("d".toList, { content := [], createdAt := [], updatedAt := [], expiresAt := none, passwordHash := none, passwordSetAt := none, viewCount := 0, lastAccessedAt := none })] "d".toList none none (some ⟨some (.num 5), none⟩) 3).2 "d".toList ⟨none, none, none⟩ 4).1 = .okRead (some (.num 5)) none false := by
  have T := @c10_content_roundtrip 10 [("d".toList, { content := [], createdAt := [], updatedAt := [], expiresAt := none, passwordHash := none, passwordSetAt := none, viewCount := 0, lastAccessedAt := none })] "d".toList { content := [], createdAt := [], updatedAt := [], expiresAt := none, passwordHash := none, passwordSetAt := none, viewCount := 0, lastAccessedAt := none } none none ⟨some (.num 5), none⟩ (.num 5) "5".toList 3 4 ⟨none, none, none⟩ rfl rfl rfl rfl rfl rfl (Or.inl rfl)
  exact T

theorem c5_merge_uploads_all_witness :
    mergeLocalFavoritesToServer []
        [{ url := "http://x/a".toList, title := "t1".toList }, { url := "http://x/a/".toList, title := "t2".toList }] =
      ([{ url := "http://x/a".toList, title := "t1".toList }, { url := "http://x/a/".toList, title := "t2".toList }], [], true) := by
  have T := @c5_merge_uploads_all
    [{ url := "http://x/a".toList, title := "t1".toList }, { url := "http://x/a/".toList, title := "t2".toList }]
    (by decide) (by decide)
  exact T.trans rfl

end Pastebin
